import Mathlib

/-
Verification of the Enhanced Document Hierarchy Builder (src/main.py).

The Python program turns a flat, per-page list of labeled document elements
into a nested hierarchy: it classifies labels into levels, merges
figure/table+caption pairs and runs of consecutive list elements, builds the
structural tree from a level-indexed open-ancestor table, attaches content
elements to the nearest preceding structural node, optionally generates
summaries bottom-up through an external summarizer, and serializes the tree.

This file is a shallow embedding of that program:
  * Python dataclass `EnhancedDocumentNode` field state becomes `NodeData`
    (scalar fields) plus the tree type `DTree` (children / content_elements
    edges).  The mutable `parent` back-reference is a non-owning diagnostic
    pointer and carries no information beyond the tree shape, so it is not
    modelled.  The `embeddings` field is never populated anywhere in the
    program (it always keeps its default `[]`), so the serializer below emits
    it as a constant empty array instead of carrying a float list around.
  * Python object identity matters for the tree-building claims (two distinct
    elements may have equal field values), so every created node carries a
    unique tag `nid : Nat`, assigned in creation order.  No embedded function
    branches on `nid`; it only names nodes.
  * Machine integers do not occur: Python ints are unbounded, hence `Int`.
  * The OpenAI client is modelled as an injected `Summarizer` record whose
    calls return `Except`, mirroring "call that may raise".  The prompt
    strings built by the program are presentation for the external model; the
    summarizer interface receives exactly the data the program feeds into the
    prompt (label, own text, content summaries, child summaries).
-/

namespace DocHierarchy

/- ---------------------------------------------------------------------
   Data model
--------------------------------------------------------------------- -/

/-- Snapshot of an element recorded in `merged_elements`
    (the dict literal built inside `EnhancedDocumentNode.merge_with`). -/
structure Snapshot where
  label : String
  text : String
  bbox : Option (List Int)
  page : Int
  reading_order : Int
deriving DecidableEq, Repr

/-- The scalar fields of `EnhancedDocumentNode`.  Tree edges (`children`,
    `content_elements`) live in `DTree`; `parent` is a non-owning
    back-reference and is not modelled; `embeddings` is always `[]` in this
    program and is therefore not carried.  `nid` models Python object
    identity (unique per created node, never inspected by embedded code). -/
structure NodeData where
  id : String
  label : String
  text : String
  level : Int
  page : Int
  reading_order : Int
  bbox : Option (List Int)
  summary : Option String
  merged_elements : List Snapshot
  nid : Nat
deriving DecidableEq, Repr

/-- The document tree: a node's scalar data, its structural children, and its
    attached content elements. -/
inductive DTree where
  | node (data : NodeData) (children : List DTree) (content : List DTree)

/-- `EnhancedDocumentNode.is_structural`. -/
def is_structural (d : NodeData) : Bool :=
  d.label = "title" || d.label = "sec" ||
    (match d.label.toList with
     | 's' :: 'u' :: 'b' :: '_' :: _ => true
     | _ => false) ||
    d.label = "document"

/-- `EnhancedDocumentNode.is_content`. -/
def is_content (d : NodeData) : Bool :=
  d.label = "para" || d.label = "list" || d.label = "list_group" ||
  d.label = "figure" || d.label = "table" || d.label = "cap" ||
  d.label = "fig" || d.label = "tab" || d.label = "fnote" ||
  d.label = "foot" || d.label = "author"

/- ---------------------------------------------------------------------
   ElementClassifier: label to level
--------------------------------------------------------------------- -/

/-- Embedding of Python `label.count('sub_')`: the number of non-overlapping
    occurrences of `sub_`, scanned left to right. -/
def countSubAux : List Char → Nat
  | 's' :: 'u' :: 'b' :: '_' :: rest => countSubAux rest + 1
  | _ :: rest => countSubAux rest
  | [] => 0

/-- Embedding of Python `label.startswith('sub_')`. -/
def label_starts_with_sub (label : String) : Bool :=
  match label.toList with
  | 's' :: 'u' :: 'b' :: '_' :: _ => true
  | _ => false

/-- The level rule shared verbatim by `determine_node_level_dynamic` (on a
    raw element) and `EnhancedDocumentNode.determine_nesting_level` (on a
    node); both are the same if-chain on the label. -/
def levelOfLabel (label : String) : Int :=
  if label = "title" then 0
  else if label = "sec" then 1
  else if label_starts_with_sub label then (countSubAux label.toList : Int) + 1
  else -1

/- ---------------------------------------------------------------------
   Raw JSON input
--------------------------------------------------------------------- -/

/-- A raw element of the input JSON; each field may be absent
    (the program reads them with `element.get(key, default)`). -/
structure RawElement where
  label : Option String
  text : Option String
  reading_order : Option Int
  bbox : Option (List Int)
deriving DecidableEq, Repr

/-- A raw page of the input JSON. -/
structure RawPage where
  page_number : Option Int
  elements : List RawElement
deriving DecidableEq, Repr

/-- The input JSON object.  A missing `pages` key reads as `[]` via
    `json_data.get('pages', [])`, which coincides with the empty list. -/
structure RawDoc where
  pages : List RawPage
deriving DecidableEq, Repr

/-- `determine_node_level_dynamic` (element dict version): reads the label
    with default `''` and applies the level rule. -/
def determine_node_level_dynamic (e : RawElement) : Int :=
  levelOfLabel (e.label.getD "")

/-- `EnhancedDocumentNode.determine_nesting_level` (method version). -/
def determine_nesting_level (d : NodeData) : Int :=
  levelOfLabel d.label

/-- `create_node_from_element`: defaults `''` for label and text, `0` for
    reading_order, `None` for bbox; id is `page_<p>_order_<r>`. -/
def create_node_from_element (e : RawElement) (page_num : Int) (nid : Nat) : NodeData :=
  { id := "page_" ++ toString page_num ++ "_order_" ++ toString (e.reading_order.getD 0)
    label := e.label.getD ""
    text := e.text.getD ""
    level := determine_node_level_dynamic e
    page := page_num
    reading_order := e.reading_order.getD 0
    bbox := e.bbox
    summary := none
    merged_elements := []
    nid := nid }

/- ---------------------------------------------------------------------
   MergeEngine
--------------------------------------------------------------------- -/

/-- The snapshot dict built inside `merge_with`. -/
def NodeData.snapshot (d : NodeData) : Snapshot :=
  { label := d.label, text := d.text, bbox := d.bbox
    page := d.page, reading_order := d.reading_order }

/-- `EnhancedDocumentNode.merge_with`: record the snapshots (self first, only
    when not already merged), then rewrite text and label for the three
    recognized label combinations. -/
def merge_with (self other : NodeData) : NodeData :=
  let me := (if self.merged_elements.isEmpty then [self.snapshot]
             else self.merged_elements) ++ [other.snapshot]
  if self.label = "fig" ∧ other.label = "cap" then
    { self with merged_elements := me
                text := other.text ++ " [IMAGE: " ++ self.text ++ "]"
                label := "figure" }
  else if self.label = "tab" ∧ other.label = "cap" then
    { self with merged_elements := me
                text := other.text ++ " [TABLE: " ++ self.text ++ "]"
                label := "table" }
  else if self.label = "list" then
    { self with merged_elements := me
                text := self.text ++ "\n" ++ other.text
                label := "list_group" }
  else
    { self with merged_elements := me }

/-- `merge_figure_caption_pairs`: left-to-right scan; a `fig`/`tab`
    immediately followed by a same-page `cap` merges with it and the scan
    skips both. -/
def merge_figure_caption_pairs : List NodeData → List NodeData
  | [] => []
  | [x] => [x]
  | x :: y :: rest =>
    if (x.label = "fig" ∨ x.label = "tab") ∧ y.label = "cap" ∧ x.page = y.page then
      merge_with x y :: merge_figure_caption_pairs rest
    else
      x :: merge_figure_caption_pairs (y :: rest)

/-- State of the inner while-loop of `merge_consecutive_lists`: the group
    being accumulated, the page of the run head (`current.page`), and the
    reading order of the previous element of the run (`elements[j-1]`). -/
def mclGo : Option (NodeData × Int × Int) → List NodeData → List NodeData
  | none, [] => []
  | some (g, _, _), [] => [g]
  | none, x :: rest =>
    if x.label = "list" then mclGo (some (x, x.page, x.reading_order)) rest
    else x :: mclGo none rest
  | some (g, hp, po), x :: rest =>
    if x.label = "list" ∧ x.page = hp ∧ x.reading_order = po + 1 then
      mclGo (some (merge_with g x, hp, x.reading_order)) rest
    else
      g :: (if x.label = "list" then mclGo (some (x, x.page, x.reading_order)) rest
            else x :: mclGo none rest)

/-- `merge_consecutive_lists`: each maximal run of same-page, contiguous
    `list` elements is folded into its head by repeated `merge_with`. -/
def merge_consecutive_lists (elements : List NodeData) : List NodeData :=
  mclGo none elements

/- ---------------------------------------------------------------------
   Sorting by (page, reading_order)
--------------------------------------------------------------------- -/

/-- The non-strict lexicographic order on `(page, reading_order)` used as the
    sort key (`key=lambda x: (x.page, x.reading_order)`). -/
def keyLe (a b : NodeData) : Prop :=
  a.page < b.page ∨ (a.page = b.page ∧ a.reading_order ≤ b.reading_order)

/-- The strict lexicographic order on `(page, reading_order)`: the comparison
    written out in `_assign_content_as_leaf_nodes`. -/
def keyLt (a b : NodeData) : Prop :=
  a.page < b.page ∨ (a.page = b.page ∧ a.reading_order < b.reading_order)

instance : DecidableRel keyLe := fun _ _ =>
  inferInstanceAs (Decidable (_ ∨ _))

instance : DecidableRel keyLt := fun _ _ =>
  inferInstanceAs (Decidable (_ ∨ _))

instance : IsTotal NodeData keyLe :=
  ⟨by intro a b; unfold keyLe; omega⟩

instance : IsTrans NodeData keyLe :=
  ⟨by intro a b c; unfold keyLe; omega⟩

/-- Python `list.sort` is a stable sort; insertion sort with the non-strict
    lexicographic order is a stable sort, hence computes the same list. -/
def sort_by_key (l : List NodeData) : List NodeData :=
  List.insertionSort keyLe l

/- ---------------------------------------------------------------------
   HierarchyAssembler (`_build_unlimited_depth_hierarchy`)

   The Python code keeps a dict `level_parents : level → node` and mutates
   nodes by `add_child`.  At every moment the dict's entries, ordered by
   level, form the rightmost open path of the tree being built: key 0 is the
   root (never removed, since every processed node has level ≥ 1), and a new
   node at level L removes all entries at level ≥ L and is attached to the
   entry at the greatest remaining level (which is the greatest level ≤ L−1).
   Functionally this is the classic stack of open frames: a frame is a node
   plus its children accumulated so far (in reverse); inserting a node at
   level L first closes every frame at level ≥ L (each closed frame becomes
   the next child of the frame below it - the order children are appended to
   a parent is unchanged, namely their insertion order), then pushes a fresh
   frame.  The bottom frame is the root.
--------------------------------------------------------------------- -/

/-- An open node: its data and its children so far, most recent first. -/
abbrev Frame := NodeData × List DTree

/-- Close an open frame into a finished subtree (children restored to
    insertion order; content is attached by a later pass). -/
def closeFrame (f : Frame) : DTree :=
  .node f.1 f.2.reverse []

/-- Close every open frame at level ≥ L (the dict deletions
    `del level_parents[k]` for `k > node.level` together with the
    replacement of the entry at `node.level`). -/
def popTo (L : Int) : Frame → List Frame → List Frame
  | f, [] => [f]
  | f, g :: rest =>
    if L ≤ f.1.level then popTo L (g.1, closeFrame f :: g.2) rest
    else f :: g :: rest

/-- One iteration of the `for node in structural_nodes` loop: nodes at level
    ≤ 0 are skipped (`continue`), any other node closes the deeper frames and
    opens its own. -/
def insertStructural (st : List Frame) (n : NodeData) : List Frame :=
  if n.level ≤ 0 then st
  else
    match st with
    | [] => [(n, [])]
    | f :: rest => (n, []) :: popTo n.level f rest

/-- Close all remaining open frames at the end of the loop. -/
def closeAll : Frame → List Frame → DTree
  | f, [] => closeFrame f
  | f, g :: rest => closeAll (g.1, closeFrame f :: g.2) rest

/-- `_build_unlimited_depth_hierarchy` as a fold over the structural nodes,
    starting from the stack holding only the root frame
    (`level_parents = {0: root}`). -/
def build_unlimited_depth_hierarchy (root : NodeData) (structural_nodes : List NodeData) : DTree :=
  match structural_nodes.foldl insertStructural [(root, [])] with
  | [] => closeFrame (root, [])
  | f :: rest => closeAll f rest

/- ---------------------------------------------------------------------
   LeafAssigner (`_assign_content_as_leaf_nodes`)
--------------------------------------------------------------------- -/

/-- The data stored at the root of a tree. -/
def rootData : DTree → NodeData
  | .node d _ _ => d

/-- `_collect_structural_nodes`: pre-order collection over `children`,
    keeping nodes satisfying `is_structural() or label == 'document'`. -/
def collect_structural_nodes : DTree → List NodeData
  | .node d ch _ =>
    (if is_structural d || d.label = "document" then [d] else []) ++
      (ch.attach.map (fun c => collect_structural_nodes c.1)).flatten
termination_by t => sizeOf t
decreasing_by
  have := List.sizeOf_lt_of_mem c.2
  simp only [DTree.node.sizeOf_spec]
  omega

/-- The `for structural_node in all_structural` scan with early `break`:
    remember the last structural node strictly before the content node,
    stop at the first that is not. -/
def best_parent_scan (c : NodeData) : NodeData → List NodeData → NodeData
  | best, [] => best
  | best, s :: rest =>
    if keyLt s c then best_parent_scan c s rest else best

/-- The parent chosen for one content node: scan the sorted structural list
    starting from the root as current best. -/
def best_parent (root : DTree) (sortedStruct : List NodeData) (c : NodeData) : NodeData :=
  best_parent_scan c (rootData root) sortedStruct

/-- Distribute the assigned content nodes into the tree: a structural node's
    `content_elements` are exactly the content nodes whose chosen parent it
    is, in content order (Python appends them in exactly that order).  Trees
    reaching this pass have empty `content_elements` everywhere. -/
def attach_content : DTree → List (NodeData × Nat) → DTree
  | .node d ch _, asg =>
    .node d (ch.attach.map (fun c => attach_content c.1 asg))
      ((asg.filter (fun p => p.2 = d.nid)).map (fun p => DTree.node p.1 [] []))
termination_by t => sizeOf t
decreasing_by
  have := List.sizeOf_lt_of_mem c.2
  simp only [DTree.node.sizeOf_spec]
  omega

/-- `_assign_content_as_leaf_nodes`: collect and sort the structural nodes of
    the tree, choose each content node's parent by the scan, and attach. -/
def assign_content_as_leaf_nodes (root : DTree) (content_nodes : List NodeData) : DTree :=
  let sortedStruct := sort_by_key (collect_structural_nodes root)
  let asg := content_nodes.map (fun c => (c, (best_parent root sortedStruct c).nid))
  attach_content root asg

/- ---------------------------------------------------------------------
   SummaryOrchestrator
--------------------------------------------------------------------- -/

/-- The external summarizer (the OpenAI client): both calls may fail.  The
    section call receives the data the program composes into its prompt: the
    node's label and text, one `(label, summary-or-text-excerpt)` pair per
    content element, and one `(text, summary)` pair per child that has a
    summary. -/
structure Summarizer where
  summarizeLeaf : String → String → Except String String
  summarizeSection : String → String → List (String × String) → List (String × String) →
    Except String String

/-- Python string truthiness of an optional summary: `None` and `''` are
    falsy. -/
def truthy : Option String → Bool
  | none => false
  | some s => !(s == "")

/-- `generate_leaf_summary`: on success the stripped completion text, on any
    error the fallback built from label and the first 100 characters of the
    text. -/
def generate_leaf_summary (s : Summarizer) (d : NodeData) : String :=
  match s.summarizeLeaf d.label d.text with
  | .ok content => content.trim
  | .error _ =>
    "Summary unavailable for " ++ d.label ++ ": " ++ d.text.take 100 ++ "..."

/-- `generate_section_summary`: composes the content pairs (summary if
    truthy, else a 200-character text excerpt) and the child pairs (children
    with truthy summaries only), calls the summarizer, and on any error
    returns the section fallback (label only, no text excerpt). -/
def generate_section_summary (s : Summarizer) (d : NodeData)
    (contentData : List NodeData) (childData : List NodeData) : String :=
  let contentPairs := contentData.map (fun c =>
    (c.label, if truthy c.summary then c.summary.getD "" else c.text.take 200 ++ "..."))
  let childPairs := (childData.filter (fun c => truthy c.summary)).map
    (fun c => (c.text, c.summary.getD ""))
  match s.summarizeSection d.label d.text contentPairs childPairs with
  | .ok content => content.trim
  | .error _ => "Summary unavailable for section " ++ d.label

/-- The `if not content.summary` update of one content element. -/
def content_leaf_update (s : Summarizer) : DTree → DTree
  | .node d ch ct =>
    .node (if truthy d.summary then d
           else { d with summary := some (generate_leaf_summary s d) }) ch ct

/-- `generate_summaries_recursive`: children first (bottom-up), then the
    content leaves of this node, then - if structural (or the synthetic
    document root) and still without a truthy summary - the node itself,
    composed from the freshly updated content and child data. -/
def generate_summaries_recursive (s : Summarizer) : DTree → DTree
  | .node d ch ct =>
    let ch2 := ch.attach.map (fun c => generate_summaries_recursive s c.1)
    let ct2 := ct.map (content_leaf_update s)
    let secSum := generate_section_summary s d (ct2.map rootData) (ch2.map rootData)
    let d2 :=
      if (is_structural d || d.label = "document") && !truthy d.summary then
        { d with summary := some secSum }
      else d
    .node d2 ch2 ct2
termination_by t => sizeOf t
decreasing_by
  have := List.sizeOf_lt_of_mem c.2
  simp only [DTree.node.sizeOf_spec]
  omega

/- ---------------------------------------------------------------------
   Serializer (`to_dict`) and `get_section_number`
--------------------------------------------------------------------- -/

/-- Nested JSON-like values as emitted by `to_dict` / `json.dump`. -/
inductive JVal where
  | null
  | str (s : String)
  | int (n : Int)
  | bool (b : Bool)
  | arr (xs : List JVal)
  | obj (fields : List (String × JVal))

/-- The groups `(\.\d+)*` of the section-number pattern: greedily consume a
    dot followed by one or more digits, repeatedly.  Fuel bounds the
    recursion by the remaining characters. -/
def dotGroups : Nat → List Char → List Char
  | 0, _ => []
  | _, [] => []
  | fuel + 1, c :: rest =>
    if c = '.' then
      let ds := rest.takeWhile Char.isDigit
      if ds.isEmpty then []
      else c :: ds ++ dotGroups fuel (rest.drop ds.length)
    else []

/-- `get_section_number`: the leading match of `\d+(\.\d+)*` on the stripped
    text, if any. -/
def get_section_number (text : String) : Option String :=
  let cs := text.trim.toList
  let ds := cs.takeWhile Char.isDigit
  if ds.isEmpty then none
  else some (String.mk (ds ++ dotGroups cs.length (cs.drop ds.length)))

/-- Serialization of a `bbox`. -/
def jbbox : Option (List Int) → JVal
  | none => .null
  | some l => .arr (l.map JVal.int)

/-- Serialization of an optional string field. -/
def jopt : Option String → JVal
  | none => .null
  | some s => .str s

/-- Serialization of a `merged_elements` snapshot. -/
def jsnapshot (s : Snapshot) : JVal :=
  .obj [("label", .str s.label), ("text", .str s.text), ("bbox", jbbox s.bbox),
        ("page", .int s.page), ("reading_order", .int s.reading_order)]

/-- `EnhancedDocumentNode.to_dict`: the emitted record, with
    `merged_elements` and `is_merged` present exactly when the node was
    merged.  `embeddings` is always `[]` in this program, hence the constant
    empty array. -/
def to_dict : DTree → JVal
  | .node d ch ct =>
    .obj ([("id", .str d.id), ("label", .str d.label), ("text", .str d.text),
           ("level", .int d.level), ("page", .int d.page),
           ("reading_order", .int d.reading_order), ("bbox", jbbox d.bbox),
           ("section_number", jopt (get_section_number d.text)),
           ("summary", jopt d.summary),
           ("embeddings", .arr []),
           ("children", .arr (ch.attach.map (fun c => to_dict c.1))),
           ("content_elements", .arr (ct.attach.map (fun c => to_dict c.1)))] ++
          (if d.merged_elements.isEmpty then []
           else [("merged_elements", .arr (d.merged_elements.map jsnapshot)),
                 ("is_merged", .bool true)]))
termination_by t => sizeOf t
decreasing_by
  · have := List.sizeOf_lt_of_mem c.2
    simp only [DTree.node.sizeOf_spec]
    omega
  · have := List.sizeOf_lt_of_mem c.2
    simp only [DTree.node.sizeOf_spec]
    omega

/- ---------------------------------------------------------------------
   `build_enhanced_hierarchy`
--------------------------------------------------------------------- -/

/-- `doc_title = next(...title...)` followed by
    `structural_nodes.remove(doc_title)`: split off the first node labeled
    `title`, keeping the order of the rest.  (Python's `remove` uses value
    equality, but every node before the first title is not a title, so the
    first equal node is the first title itself.) -/
def extractTitle : List NodeData → Option (NodeData × List NodeData)
  | [] => none
  | n :: rest =>
    if n.label = "title" then some (n, rest)
    else (extractTitle rest).map (fun p => (p.1, n :: p.2))

/-- The synthetic document root created when no title element exists.
    `nid = 0` models its fresh object identity (created nodes use 1, 2, …). -/
def document_root : NodeData :=
  { id := "document_root", label := "document", text := "Document Root"
    level := -1, page := 0, reading_order := -1, bbox := none
    summary := none, merged_elements := [], nid := 0 }

/-- The `(page_number, element)` pairs visited by the double loop
    `for page in pages: for element in page.elements`. -/
def create_page_pairs (json_data : RawDoc) : List (Int × RawElement) :=
  json_data.pages.flatMap
    (fun p => p.elements.map (fun e => (p.page_number.getD 0, e)))

/-- Create one node per visited pair, tagging each with a fresh `nid` in
    creation order (`nid` models Python object identity; 0 is reserved for
    the synthetic document root). -/
def assignNids : Nat → List (Int × RawElement) → List NodeData
  | _, [] => []
  | k, (pn, e) :: rest => create_node_from_element e pn k :: assignNids (k + 1) rest

/-- Node creation over all pages and elements, in document order. -/
def create_all_nodes (json_data : RawDoc) : List NodeData :=
  assignNids 1 (create_page_pairs json_data)

/-- `all_elements`, sorted by `(page, reading_order)`. -/
def all_elements_sorted (json_data : RawDoc) : List NodeData :=
  sort_by_key (create_all_nodes json_data)

/-- The `structural_nodes` list comprehension. -/
def structural_nodes_of (json_data : RawDoc) : List NodeData :=
  (all_elements_sorted json_data).filter (fun n => is_structural n)

/-- The `content_nodes` list after both merge passes (anything neither
    structural nor content has been dropped by the comprehensions). -/
def content_nodes_of (json_data : RawDoc) : List NodeData :=
  merge_consecutive_lists
    (merge_figure_caption_pairs
      ((all_elements_sorted json_data).filter (fun n => is_content n)))

/-- Root selection: the first `title` element (removed from the structural
    list), or the synthetic document root. -/
def root_split (json_data : RawDoc) : NodeData × List NodeData :=
  match extractTitle (structural_nodes_of json_data) with
  | some p => p
  | none => (document_root, structural_nodes_of json_data)

/-- The structural hierarchy before content attachment. -/
def structural_tree (json_data : RawDoc) : DTree :=
  build_unlimited_depth_hierarchy (root_split json_data).1 (root_split json_data).2

/-- The tree after content attachment. -/
def assembled_tree (json_data : RawDoc) : DTree :=
  assign_content_as_leaf_nodes (structural_tree json_data) (content_nodes_of json_data)

/-- `build_enhanced_hierarchy`: create nodes, sort by `(page, reading_order)`,
    split structural/content (anything in neither class is dropped), merge
    fig/tab+cap pairs then consecutive lists, pick the root (first title, or
    the synthetic document root), build the structural hierarchy, attach the
    content, and optionally run the summarization pass. -/
def build_enhanced_hierarchy (json_data : RawDoc) (s : Summarizer)
    (enable_summaries : Bool) : DTree :=
  if enable_summaries then generate_summaries_recursive s (assembled_tree json_data)
  else assembled_tree json_data

/- ---------------------------------------------------------------------
   Basic tree machinery: induction principle and unfolding equations for
   the functions defined by well-founded recursion over `DTree`.
--------------------------------------------------------------------- -/

/-- Induction over `DTree` through the nested lists. -/
theorem DTree.recMem {motive : DTree → Prop}
    (h : ∀ d ch ct, (∀ c ∈ ch, motive c) → (∀ c ∈ ct, motive c) →
      motive (.node d ch ct)) :
    ∀ t, motive t := by
  intro t
  match t with
  | .node d ch ct =>
    exact h d ch ct (fun c hc => DTree.recMem h c) (fun c hc => DTree.recMem h c)
termination_by t => sizeOf t
decreasing_by
  · have := List.sizeOf_lt_of_mem hc
    simp only [DTree.node.sizeOf_spec]
    omega
  · have := List.sizeOf_lt_of_mem hc
    simp only [DTree.node.sizeOf_spec]
    omega

theorem collect_structural_nodes_node (d : NodeData) (ch ct : List DTree) :
    collect_structural_nodes (.node d ch ct) =
      (if is_structural d || d.label = "document" then [d] else []) ++
        (ch.map collect_structural_nodes).flatten := by
  rw [collect_structural_nodes]
  simp [List.attach_map_coe]

theorem attach_content_node (d : NodeData) (ch ct : List DTree)
    (asg : List (NodeData × Nat)) :
    attach_content (.node d ch ct) asg =
      .node d (ch.map (attach_content · asg))
        ((asg.filter (fun p => p.2 = d.nid)).map (fun p => DTree.node p.1 [] [])) := by
  rw [attach_content]
  simp [List.attach_map_coe]

theorem generate_summaries_recursive_node (s : Summarizer) (d : NodeData)
    (ch ct : List DTree) :
    generate_summaries_recursive s (.node d ch ct) =
      (let ch2 := ch.map (generate_summaries_recursive s)
       let ct2 := ct.map (content_leaf_update s)
       let secSum := generate_section_summary s d (ct2.map rootData) (ch2.map rootData)
       let d2 :=
         if (is_structural d || d.label = "document") && !truthy d.summary then
           { d with summary := some secSum }
         else d
       .node d2 ch2 ct2) := by
  rw [generate_summaries_recursive]
  simp [List.attach_map_coe]

theorem to_dict_node (d : NodeData) (ch ct : List DTree) :
    to_dict (.node d ch ct) =
      .obj ([("id", .str d.id), ("label", .str d.label), ("text", .str d.text),
             ("level", .int d.level), ("page", .int d.page),
             ("reading_order", .int d.reading_order), ("bbox", jbbox d.bbox),
             ("section_number", jopt (get_section_number d.text)),
             ("summary", jopt d.summary),
             ("embeddings", .arr []),
             ("children", .arr (ch.map to_dict)),
             ("content_elements", .arr (ct.map to_dict))] ++
            (if d.merged_elements.isEmpty then []
             else [("merged_elements", .arr (d.merged_elements.map jsnapshot)),
                   ("is_merged", .bool true)])) := by
  rw [to_dict]
  simp [List.attach_map_coe]

/- ---------------------------------------------------------------------
   C4: the classifier level rule
--------------------------------------------------------------------- -/

/-- The spec's repeating-prefix pattern `sub_…sec`: `some n` when the label
    is exactly n copies of `sub_` followed by `sec`. -/
def specSubSecDepth : List Char → Option Nat
  | 's' :: 'e' :: 'c' :: [] => some 0
  | 's' :: 'u' :: 'b' :: '_' :: rest => (specSubSecDepth rest).map (· + 1)
  | _ => none

/-- The level rule exactly as the claim states it: `title → 0`, `sec → 1`,
    labels matching `sub_…sec` → number of `sub_` occurrences plus one, and
    −1 for every other label. -/
def claimed_level_rule (label : String) : Int :=
  if label = "title" then 0
  else if label = "sec" then 1
  else
    match specSubSecDepth label.toList with
    | some n => (n : Int) + 1
    | none => -1

/-- n copies of `sub_`. -/
def repSubChars : Nat → List Char
  | 0 => []
  | n + 1 => 's' :: 'u' :: 'b' :: '_' :: repSubChars n

theorem countSubAux_cons_sub (l : List Char) :
    countSubAux ('s' :: 'u' :: 'b' :: '_' :: l) = countSubAux l + 1 := rfl

theorem countSubAux_repSub_append (n : Nat) (l : List Char) :
    countSubAux (repSubChars n ++ l) = n + countSubAux l := by
  induction n with
  | zero => simp [repSubChars]
  | succ k ih =>
    show countSubAux ('s' :: 'u' :: 'b' :: '_' :: (repSubChars k ++ l)) = (k + 1) + countSubAux l
    rw [countSubAux_cons_sub, ih]
    omega

theorem specSubSecDepth_repSub (n : Nat) :
    specSubSecDepth (repSubChars n ++ ['s', 'e', 'c']) = some n := by
  induction n with
  | zero => rfl
  | succ k ih =>
    show specSubSecDepth ('s' :: 'u' :: 'b' :: '_' :: (repSubChars k ++ ['s', 'e', 'c'])) =
      some (k + 1)
    rw [show ∀ m, specSubSecDepth ('s' :: 'u' :: 'b' :: '_' :: m) =
      (specSubSecDepth m).map (· + 1) from fun m => rfl, ih]
    rfl

theorem mk_sub_ne_title (l : List Char) :
    String.mk ('s' :: 'u' :: 'b' :: '_' :: l) ≠ "title" := by
  simp [String.ext_iff]

theorem mk_sub_ne_sec (l : List Char) :
    String.mk ('s' :: 'u' :: 'b' :: '_' :: l) ≠ "sec" := by
  simp [String.ext_iff]

/-- C4, counterexample: the label `sub_x` starts with `sub_` but does not
    match the pattern `sub_…sec`; the claim assigns it level −1, the code
    assigns it level 2. -/
theorem claim_C4_counterexample :
    determine_node_level_dynamic ⟨some "sub_x", none, none, none⟩ = 2 ∧
    claimed_level_rule "sub_x" = -1 ∧
    determine_node_level_dynamic ⟨some "sub_x", none, none, none⟩ ≠
      claimed_level_rule "sub_x" := by
  decide

/-- C4, amended: `title → 0`; labels of the form `(sub_)^n sec` (which
    includes `sec` itself at n = 0) → n+1, exactly as the claim's rule
    assigns them; but ANY label starting with `sub_` - not only those
    matching `sub_…sec` - is given (number of `sub_` occurrences) + 1; and
    only labels that are not `title`, not `sec`, and do not start with
    `sub_` get level −1. -/
theorem claim_C4_classifier_level_rule :
    (∀ (e : RawElement) (n : Nat),
        e.label = some (String.mk (repSubChars n ++ ['s', 'e', 'c'])) →
        determine_node_level_dynamic e = (n : Int) + 1 ∧
        claimed_level_rule (String.mk (repSubChars n ++ ['s', 'e', 'c'])) = (n : Int) + 1) ∧
    (∀ e : RawElement, e.label = some "title" → determine_node_level_dynamic e = 0) ∧
    (∀ (e : RawElement) (label : String), e.label = some label →
        label_starts_with_sub label = true →
        determine_node_level_dynamic e = (countSubAux label.toList : Int) + 1) ∧
    (∀ (e : RawElement) (label : String), e.label = some label →
        label_starts_with_sub label = false → label ≠ "title" → label ≠ "sec" →
        determine_node_level_dynamic e = -1) := by
  have key3 : ∀ label : String, label_starts_with_sub label = true →
      levelOfLabel label = (countSubAux label.toList : Int) + 1 := by
    intro label hsub
    have ht : label ≠ "title" := by
      intro h
      subst h
      exact absurd hsub (by decide)
    have hs : label ≠ "sec" := by
      intro h
      subst h
      exact absurd hsub (by decide)
    unfold levelOfLabel
    rw [if_neg ht, if_neg hs, if_pos hsub]
  refine ⟨?_, ?_, ?_, ?_⟩
  · intro e n hl
    match n with
    | 0 =>
      have hsec : String.mk (repSubChars 0 ++ ['s', 'e', 'c']) = "sec" := by decide
      rw [hsec] at hl
      constructor
      · simp [determine_node_level_dynamic, hl, levelOfLabel]
      · rw [hsec]
        simp [claimed_level_rule]
    | Nat.succ k =>
      have hne1 := mk_sub_ne_title (repSubChars k ++ ['s', 'e', 'c'])
      have hne2 := mk_sub_ne_sec (repSubChars k ++ ['s', 'e', 'c'])
      have hlist : (String.mk ('s' :: 'u' :: 'b' :: '_' ::
          (repSubChars k ++ ['s', 'e', 'c']))).toList
          = repSubChars (k + 1) ++ ['s', 'e', 'c'] := by
        simp [repSubChars, String.toList]
      simp only [repSubChars, List.cons_append] at hl ⊢
      constructor
      · simp only [determine_node_level_dynamic, hl, Option.getD_some]
        rw [key3 (String.mk ('s' :: 'u' :: 'b' :: '_' ::
            (repSubChars k ++ ['s', 'e', 'c']))) (by rfl), hlist, countSubAux_repSub_append]
        have hsec0 : countSubAux ['s', 'e', 'c'] = 0 := by decide
        rw [hsec0]
      · unfold claimed_level_rule
        rw [if_neg hne1, if_neg hne2, hlist, specSubSecDepth_repSub]
  · intro e hl
    simp [determine_node_level_dynamic, hl, levelOfLabel]
  · intro e label hl hsub
    simp only [determine_node_level_dynamic, hl, Option.getD_some]
    exact key3 label hsub
  · intro e label hl hsub ht hs
    simp only [determine_node_level_dynamic, hl, Option.getD_some]
    unfold levelOfLabel
    rw [if_neg ht, if_neg hs,
      if_neg (by simp [hsub] : ¬label_starts_with_sub label = true)]

/-- C4, witness: the amended rule evaluated at `sub_sub_sec` (depth 3) and at
    the content label `para` (level −1). -/
theorem claim_C4_witness :
    determine_node_level_dynamic ⟨some "sub_sub_sec", none, none, none⟩ = 3 ∧
    determine_node_level_dynamic ⟨some "para", none, none, none⟩ = -1 := by
  constructor
  · have h := (claim_C4_classifier_level_rule.1 ⟨some "sub_sub_sec", none, none, none⟩ 2
      (by decide)).1
    rw [h]
    norm_num
  · exact claim_C4_classifier_level_rule.2.2.2 ⟨some "para", none, none, none⟩ "para" rfl
      (by decide) (by decide) (by decide)

/- ---------------------------------------------------------------------
   C3: the consecutive-list run merge
--------------------------------------------------------------------- -/

/-- C3: evaluation of `merge_consecutive_lists` at a maximal run of three
    same-page `list` elements with contiguous reading order and texts
    `a`, `b`, `c`.  The run does collapse into a single `list_group` node
    whose `merged_elements` records all three members in order, but the
    node's text is `a\nb`, not the newline-join `a\nb\nc` of all three
    constituent texts: after the first `merge_with` the label has become
    `list_group`, so later `merge_with` calls in the same run match none of
    the label combinations and silently drop the incoming text. -/
theorem claim_C3_list_run_text_dropped :
    merge_consecutive_lists
        [⟨"page_1_order_1", "list", "a", -1, 1, 1, none, none, [], 1⟩,
         ⟨"page_1_order_2", "list", "b", -1, 1, 2, none, none, [], 2⟩,
         ⟨"page_1_order_3", "list", "c", -1, 1, 3, none, none, [], 3⟩] =
      [⟨"page_1_order_1", "list_group", "a\nb", -1, 1, 1, none, none,
        [⟨"list", "a", none, 1, 1⟩, ⟨"list", "b", none, 1, 2⟩,
         ⟨"list", "c", none, 1, 3⟩], 1⟩] ∧
    ("a\nb" : String) ≠ "a" ++ "\n" ++ "b" ++ "\n" ++ "c" := by
  decide

/- ---------------------------------------------------------------------
   C8: the merge passes as pure reductions
--------------------------------------------------------------------- -/

/-- The original elements represented by one (possibly merged) node: its
    recorded snapshots if it was merged, otherwise the node itself. -/
def provenance (d : NodeData) : List Snapshot :=
  if d.merged_elements.isEmpty then [d.snapshot] else d.merged_elements

/-- The original elements represented by a list of nodes. -/
def provenanceAll : List NodeData → List Snapshot
  | [] => []
  | n :: rest => provenance n ++ provenanceAll rest

theorem provenance_merge_with (a b : NodeData) (hb : b.merged_elements = []) :
    provenance (merge_with a b) = provenance a ++ provenance b := by
  have hbp : provenance b = [b.snapshot] := by
    simp [provenance, hb]
  unfold merge_with provenance
  split_ifs with h1 h2 h3 <;>
    simp_all [provenance]

theorem merge_figure_caption_pairs_length :
    ∀ l : List NodeData, (merge_figure_caption_pairs l).length ≤ l.length
  | [] => by simp [merge_figure_caption_pairs]
  | [x] => by simp [merge_figure_caption_pairs]
  | x :: y :: rest => by
    simp only [merge_figure_caption_pairs]
    split_ifs with h
    · have := merge_figure_caption_pairs_length rest
      simp only [List.length_cons]
      omega
    · have := merge_figure_caption_pairs_length (y :: rest)
      simp only [List.length_cons] at this ⊢
      omega

theorem mclGo_length :
    ∀ (l : List NodeData) (st : Option (NodeData × Int × Int)),
      (mclGo st l).length ≤ (match st with | none => 0 | some _ => 1) + l.length
  | [], none => by simp [mclGo]
  | [], some (g, hp, po) => by simp [mclGo]
  | x :: rest, none => by
    simp only [mclGo]
    split_ifs with h
    · have := mclGo_length rest (some (x, x.page, x.reading_order))
      simp only [List.length_cons] at this ⊢
      omega
    · have := mclGo_length rest none
      simp only [List.length_cons] at this ⊢
      omega
  | x :: rest, some (g, hp, po) => by
    simp only [mclGo]
    split_ifs with h h2
    · have := mclGo_length rest (some (merge_with g x, hp, x.reading_order))
      simp only [List.length_cons] at this ⊢
      omega
    · have := mclGo_length rest (some (x, x.page, x.reading_order))
      simp only [List.length_cons] at this ⊢
      omega
    · have := mclGo_length rest none
      simp only [List.length_cons] at this ⊢
      omega

theorem merge_consecutive_lists_length (l : List NodeData) :
    (merge_consecutive_lists l).length ≤ l.length := by
  have := mclGo_length l none
  simpa [merge_consecutive_lists] using this

theorem merge_with_label_not_list (x y : NodeData)
    (h : (x.label = "fig" ∨ x.label = "tab") ∧ y.label = "cap" ∧ x.page = y.page) :
    (merge_with x y).label ≠ "list" := by
  unfold merge_with
  rcases h with ⟨hx | hx, hy, hp⟩ <;>
    split_ifs <;>
    simp_all

/-- Every node produced by the pairwise pass that still carries the label
    `list` is an untouched input node, hence pristine if the input was. -/
theorem merge_figure_caption_pairs_list_pristine :
    ∀ l : List NodeData, (∀ n ∈ l, n.merged_elements = []) →
      ∀ m ∈ merge_figure_caption_pairs l, m.label = "list" → m.merged_elements = []
  | [], _ => by simp [merge_figure_caption_pairs]
  | [x], h => by
    simp only [merge_figure_caption_pairs]
    intro m hm
    rw [List.mem_singleton] at hm
    subst hm
    intro
    exact h m (by simp)
  | x :: y :: rest, h => by
    simp only [merge_figure_caption_pairs]
    split_ifs with hc
    · intro m hm hlm
      rcases List.mem_cons.mp hm with hm | hm
      · subst hm
        exact absurd hlm (merge_with_label_not_list x y hc)
      · exact merge_figure_caption_pairs_list_pristine rest
          (fun n hn => h n (by simp [hn])) m hm hlm
    · intro m hm hlm
      rcases List.mem_cons.mp hm with hm | hm
      · subst hm
        exact h m (by simp)
      · exact merge_figure_caption_pairs_list_pristine (y :: rest)
          (fun n hn => h n (by simp [List.mem_cons.mp hn])) m hm hlm

theorem provenanceAll_merge_figure_caption_pairs :
    ∀ l : List NodeData, (∀ n ∈ l, n.merged_elements = []) →
      provenanceAll (merge_figure_caption_pairs l) = provenanceAll l
  | [] , _ => by simp [merge_figure_caption_pairs]
  | [x], _ => by simp [merge_figure_caption_pairs]
  | x :: y :: rest, h => by
    simp only [merge_figure_caption_pairs]
    split_ifs with hc
    · have hy : y.merged_elements = [] := h y (by simp)
      show provenance (merge_with x y) ++ provenanceAll (merge_figure_caption_pairs rest) = _
      rw [provenance_merge_with x y hy,
        provenanceAll_merge_figure_caption_pairs rest (fun n hn => h n (by simp [hn]))]
      show _ = provenance x ++ (provenance y ++ provenanceAll rest)
      simp
    · show provenance x ++ provenanceAll (merge_figure_caption_pairs (y :: rest)) = _
      rw [provenanceAll_merge_figure_caption_pairs (y :: rest)
        (fun n hn => h n (by simp [List.mem_cons.mp hn]))]
      rfl

theorem provenanceAll_mclGo :
    ∀ (l : List NodeData) (st : Option (NodeData × Int × Int)),
      (∀ n ∈ l, n.label = "list" → n.merged_elements = []) →
      provenanceAll (mclGo st l) =
        (match st with | none => [] | some (g, _, _) => provenance g) ++ provenanceAll l
  | [], none, _ => by simp [mclGo, provenanceAll]
  | [], some (g, hp, po), _ => by simp [mclGo, provenanceAll]
  | x :: rest, none, h => by
    simp only [mclGo]
    split_ifs with hx
    · rw [provenanceAll_mclGo rest (some (x, x.page, x.reading_order))
        (fun n hn => h n (by simp [hn]))]
      rfl
    · show provenance x ++ provenanceAll (mclGo none rest) = _
      rw [provenanceAll_mclGo rest none (fun n hn => h n (by simp [hn]))]
      rfl
  | x :: rest, some (g, hp, po), h => by
    simp only [mclGo]
    split_ifs with hm hx
    · have hxp : x.merged_elements = [] := h x (by simp) hm.1
      rw [provenanceAll_mclGo rest (some (merge_with g x, hp, x.reading_order))
        (fun n hn => h n (by simp [hn]))]
      show provenance (merge_with g x) ++ provenanceAll rest = _
      rw [provenance_merge_with g x hxp]
      show provenance g ++ provenance x ++ provenanceAll rest =
        provenance g ++ (provenance x ++ provenanceAll rest)
      simp
    · show provenance g ++ provenanceAll (mclGo (some (x, x.page, x.reading_order)) rest) = _
      rw [provenanceAll_mclGo rest (some (x, x.page, x.reading_order))
        (fun n hn => h n (by simp [hn]))]
      rfl
    · show provenance g ++ (provenance x ++ provenanceAll (mclGo none rest)) = _
      rw [provenanceAll_mclGo rest none (fun n hn => h n (by simp [hn]))]
      rfl

theorem provenanceAll_pristine :
    ∀ l : List NodeData, (∀ n ∈ l, n.merged_elements = []) →
      provenanceAll l = l.map NodeData.snapshot
  | [], _ => rfl
  | n :: rest, h => by
    show provenance n ++ provenanceAll rest = _
    rw [provenanceAll_pristine rest (fun m hm => h m (by simp [hm]))]
    have : provenance n = [n.snapshot] := by
      simp [provenance, h n (by simp)]
    rw [this]
    rfl

/-- C8, counterexample to strict decrease: a single `para` element is left
    untouched by both merge passes, so neither pass strictly decreases the
    node count on this input. -/
theorem claim_C8_counterexample :
    (merge_figure_caption_pairs
        [⟨"page_1_order_1", "para", "hello", -1, 1, 1, none, none, [], 1⟩]).length = 1 ∧
    (merge_consecutive_lists
        [⟨"page_1_order_1", "para", "hello", -1, 1, 1, none, none, [], 1⟩]).length = 1 := by
  decide

/-- C8, amended: each merge pass never increases the node count (it strictly
    decreases exactly when some pair actually merges, but an input with
    nothing to merge is returned with the same count), and after both passes
    the original pre-merge elements are fully recoverable in order from the
    `merged_elements` snapshots (an unmerged node standing for itself). -/
theorem claim_C8_pure_reductions :
    (∀ l : List NodeData, (merge_figure_caption_pairs l).length ≤ l.length) ∧
    (∀ l : List NodeData, (merge_consecutive_lists l).length ≤ l.length) ∧
    (∀ l : List NodeData, (∀ n ∈ l, n.merged_elements = []) →
      provenanceAll (merge_consecutive_lists (merge_figure_caption_pairs l)) =
        l.map NodeData.snapshot) := by
  refine ⟨merge_figure_caption_pairs_length, merge_consecutive_lists_length, ?_⟩
  intro l h
  unfold merge_consecutive_lists
  rw [provenanceAll_mclGo (merge_figure_caption_pairs l) none
    (merge_figure_caption_pairs_list_pristine l h)]
  rw [provenanceAll_merge_figure_caption_pairs l h]
  rw [provenanceAll_pristine l h]
  rfl

/-- C8, witness: the amended statement evaluated on a two-element `fig`,
    `cap` input, whose pairwise merge recovers both original snapshots. -/
theorem claim_C8_witness :
    (merge_consecutive_lists
        (merge_figure_caption_pairs
          [⟨"page_1_order_1", "fig", "img", -1, 1, 1, none, none, [], 1⟩,
           ⟨"page_1_order_2", "cap", "Figure 1", -1, 1, 2, none, none, [], 2⟩])).length ≤ 2 ∧
    provenanceAll
        (merge_consecutive_lists
          (merge_figure_caption_pairs
            [⟨"page_1_order_1", "fig", "img", -1, 1, 1, none, none, [], 1⟩,
             ⟨"page_1_order_2", "cap", "Figure 1", -1, 1, 2, none, none, [], 2⟩])) =
      [⟨"fig", "img", none, 1, 1⟩, ⟨"cap", "Figure 1", none, 1, 2⟩] := by
  constructor
  · have h1 := claim_C8_pure_reductions.1
      [⟨"page_1_order_1", "fig", "img", -1, 1, 1, none, none, [], 1⟩,
       ⟨"page_1_order_2", "cap", "Figure 1", -1, 1, 2, none, none, [], 2⟩]
    have h2 := claim_C8_pure_reductions.2.1
      (merge_figure_caption_pairs
        [⟨"page_1_order_1", "fig", "img", -1, 1, 1, none, none, [], 1⟩,
         ⟨"page_1_order_2", "cap", "Figure 1", -1, 1, 2, none, none, [], 2⟩])
    simp only [List.length_cons, List.length_nil] at h1 h2 ⊢
    omega
  · have h := claim_C8_pure_reductions.2.2
      [⟨"page_1_order_1", "fig", "img", -1, 1, 1, none, none, [], 1⟩,
       ⟨"page_1_order_2", "cap", "Figure 1", -1, 1, 2, none, none, [], 2⟩]
      (by decide)
    rw [h]
    decide

/- ---------------------------------------------------------------------
   C10: tolerance of missing optional input fields
--------------------------------------------------------------------- -/

/-- Fill every optional field of a raw element with the default the program
    reads for it: `''` for label and text, `0` for reading_order.  A missing
    bbox defaults to `None`, which is the same value as an absent one. -/
def fill_element_defaults (e : RawElement) : RawElement :=
  { label := some (e.label.getD "")
    text := some (e.text.getD "")
    reading_order := some (e.reading_order.getD 0)
    bbox := e.bbox }

/-- Fill a page's missing `page_number` with 0 and its elements' defaults. -/
def fill_page_defaults (p : RawPage) : RawPage :=
  { page_number := some (p.page_number.getD 0)
    elements := p.elements.map fill_element_defaults }

/-- Fill every missing optional field of the input document. -/
def fill_doc_defaults (json_data : RawDoc) : RawDoc :=
  ⟨json_data.pages.map fill_page_defaults⟩

theorem create_node_fill (e : RawElement) (pn : Int) (k : Nat) :
    create_node_from_element (fill_element_defaults e) pn k =
      create_node_from_element e pn k := by
  simp [create_node_from_element, fill_element_defaults, determine_node_level_dynamic]

theorem create_page_pairs_fill_aux :
    ∀ ps : List RawPage,
      (ps.map fill_page_defaults).flatMap
          (fun p => p.elements.map (fun e => (p.page_number.getD 0, e))) =
        (ps.flatMap (fun p => p.elements.map (fun e => (p.page_number.getD 0, e)))).map
          (fun q => (q.1, fill_element_defaults q.2))
  | [] => rfl
  | p :: ps => by
    simp only [List.map_cons, List.flatMap_cons, List.map_append,
      create_page_pairs_fill_aux ps]
    simp [fill_page_defaults, List.map_map, Function.comp]

theorem create_page_pairs_fill (json_data : RawDoc) :
    create_page_pairs (fill_doc_defaults json_data) =
      (create_page_pairs json_data).map (fun q => (q.1, fill_element_defaults q.2)) :=
  create_page_pairs_fill_aux json_data.pages

theorem assignNids_fill :
    ∀ (ps : List (Int × RawElement)) (k : Nat),
      assignNids k (ps.map (fun q => (q.1, fill_element_defaults q.2))) = assignNids k ps
  | [], _ => rfl
  | (pn, e) :: rest, k => by
    simp only [List.map_cons, assignNids, create_node_fill]
    rw [assignNids_fill rest (k + 1)]

theorem create_all_nodes_fill (json_data : RawDoc) :
    create_all_nodes (fill_doc_defaults json_data) = create_all_nodes json_data := by
  unfold create_all_nodes
  rw [create_page_pairs_fill, assignNids_fill]

/-- C10: the pipeline is total on inputs with missing optional fields, and
    treats them exactly as if the documented defaults had been present:
    missing `label`/`text` read as `''`, missing `reading_order` as `0`,
    missing `bbox` as `None`, missing `page_number` as page `0`.  Such
    elements are classified and processed (or dropped as unrecognized) like
    any others; no input in this space is rejected. -/
theorem claim_C10_missing_field_tolerance :
    ∀ (json_data : RawDoc) (s : Summarizer) (enable_summaries : Bool),
      build_enhanced_hierarchy (fill_doc_defaults json_data) s enable_summaries =
        build_enhanced_hierarchy json_data s enable_summaries := by
  intro json_data s b
  simp only [build_enhanced_hierarchy, assembled_tree, structural_tree, root_split,
    structural_nodes_of, content_nodes_of, all_elements_sorted, create_all_nodes_fill]

/- ---------------------------------------------------------------------
   C9: determinism of construction with summaries disabled
--------------------------------------------------------------------- -/

/-- C9: with summaries disabled, building the hierarchy and serializing it
    is a deterministic function of the input JSON alone: two runs on equal
    inputs - even with different summarizer collaborators attached - emit
    identical trees.  (The embedded pipeline is a pure function; every
    source of ordering in the program - stable sort, dict iteration,
    left-to-right scans - is deterministic, and the summarizer, the only
    external collaborator, is not consulted when `enable_summaries` is
    false.) -/
theorem claim_C9_deterministic_construction :
    ∀ (d1 d2 : RawDoc) (s1 s2 : Summarizer),
      d1 = d2 →
      to_dict (build_enhanced_hierarchy d1 s1 false) =
        to_dict (build_enhanced_hierarchy d2 s2 false) := by
  intro d1 d2 s1 s2 h
  subst h
  rfl

/-- C9, witness: two runs over a one-page, one-paragraph document with two
    different summarizers emit the same serialized tree. -/
theorem claim_C9_witness :
    to_dict (build_enhanced_hierarchy
        ⟨[⟨some 1, [⟨some "para", some "hello", some 0, none⟩]⟩]⟩
        ⟨fun _ _ => .error "down", fun _ _ _ _ => .error "down"⟩ false) =
      to_dict (build_enhanced_hierarchy
        ⟨[⟨some 1, [⟨some "para", some "hello", some 0, none⟩]⟩]⟩
        ⟨fun _ _ => .ok "S", fun _ _ _ _ => .ok "S"⟩ false) :=
  claim_C9_deterministic_construction _ _ _ _ rfl

/- ---------------------------------------------------------------------
   C2: the nearest-ancestor assignment rule
--------------------------------------------------------------------- -/

theorem keyLe_refl (a : NodeData) : keyLe a a := by
  unfold keyLe
  omega

theorem keyLt_of_keyLe_of_keyLt {a b c : NodeData} (h1 : keyLe a b) (h2 : keyLt b c) :
    keyLt a c := by
  unfold keyLe at h1
  unfold keyLt at h2 ⊢
  omega

/-- The early-break scan over a sorted structural list returns the best
    parent: the initial candidate when nothing precedes the content node,
    otherwise a maximal preceding member of the list. -/
theorem best_parent_scan_spec (c : NodeData) :
    ∀ (l : List NodeData) (best : NodeData), l.Sorted keyLe →
      ((∀ s ∈ l, ¬ keyLt s c) → best_parent_scan c best l = best) ∧
      ((∃ s ∈ l, keyLt s c) →
        best_parent_scan c best l ∈ l ∧ keyLt (best_parent_scan c best l) c ∧
        ∀ s ∈ l, keyLt s c → keyLe s (best_parent_scan c best l))
  | [], best, _ => by
    refine ⟨fun _ => rfl, ?_⟩
    rintro ⟨s, hs, -⟩
    exact absurd hs (List.not_mem_nil s)
  | s :: rest, best, hsort => by
    have hrest : rest.Sorted keyLe := hsort.of_cons
    have hhead : ∀ t ∈ rest, keyLe s t := List.rel_of_sorted_cons hsort
    by_cases hs : keyLt s c
    · have hstep : best_parent_scan c best (s :: rest) = best_parent_scan c s rest := by
        simp [best_parent_scan, hs]
      refine ⟨?_, fun _ => ?_⟩
      · intro hall
        exact absurd hs (hall s (by simp))
      · by_cases hex : ∃ t ∈ rest, keyLt t c
        · obtain ⟨hmem, hlt, hmax⟩ := ((best_parent_scan_spec c rest s hrest).2) hex
          rw [hstep]
          refine ⟨by simp [hmem], hlt, ?_⟩
          intro u hu hult
          rcases List.mem_cons.mp hu with hu | hu
          · subst hu
            exact hhead _ hmem
          · exact hmax u hu hult
        · push_neg at hex
          have heq : best_parent_scan c s rest = s :=
            ((best_parent_scan_spec c rest s hrest).1) (fun t ht => hex t ht)
          rw [hstep, heq]
          refine ⟨by simp, hs, ?_⟩
          intro u hu hult
          rcases List.mem_cons.mp hu with hu | hu
          · subst hu
            exact keyLe_refl u
          · exact absurd hult (hex u hu)
    · have hstep : best_parent_scan c best (s :: rest) = best := by
        simp [best_parent_scan, hs]
      refine ⟨fun _ => hstep, ?_⟩
      rintro ⟨t, ht, htlt⟩
      rcases List.mem_cons.mp ht with ht | ht
      · subst ht
        exact absurd htlt hs
      · exact absurd (keyLt_of_keyLe_of_keyLt (hhead t ht) htlt) hs

/-- C2: leaf assignment attaches a content node at key `(p, r)` to the
    structural node of the tree with the lexicographically greatest
    `(page, reading_order)` strictly below `(p, r)`: when some structural
    node of the tree precedes the content node, the chosen parent is such a
    node, precedes the content node, and is maximal among all preceding
    structural nodes; when none precedes it, the chosen parent is the root. -/
theorem claim_C2_nearest_ancestor (t : DTree) (c : NodeData) :
    ((∃ s ∈ collect_structural_nodes t, keyLt s c) →
      best_parent t (sort_by_key (collect_structural_nodes t)) c ∈
          collect_structural_nodes t ∧
        keyLt (best_parent t (sort_by_key (collect_structural_nodes t)) c) c ∧
        ∀ s ∈ collect_structural_nodes t, keyLt s c →
          keyLe s (best_parent t (sort_by_key (collect_structural_nodes t)) c)) ∧
    ((∀ s ∈ collect_structural_nodes t, ¬ keyLt s c) →
      best_parent t (sort_by_key (collect_structural_nodes t)) c = rootData t) := by
  have hperm : List.Perm (sort_by_key (collect_structural_nodes t))
      (collect_structural_nodes t) :=
    List.perm_insertionSort keyLe (collect_structural_nodes t)
  have hsort : (sort_by_key (collect_structural_nodes t)).Sorted keyLe :=
    List.sorted_insertionSort keyLe (collect_structural_nodes t)
  have spec := best_parent_scan_spec c (sort_by_key (collect_structural_nodes t))
    (rootData t) hsort
  constructor
  · rintro ⟨s, hs, hlt⟩
    obtain ⟨hmem, hblt, hmax⟩ := spec.2 ⟨s, hperm.mem_iff.mpr hs, hlt⟩
    exact ⟨hperm.mem_iff.mp hmem, hblt,
      fun u hu hult => hmax u (hperm.mem_iff.mpr hu) hult⟩
  · intro h
    exact spec.1 (fun s hs => h s (hperm.mem_iff.mp hs))

/-- C2, witness: in a tree with root `title` at (1,0) and one section at
    (1,1), a paragraph at (1,2) is assigned the section (which precedes it
    and is maximal), and a paragraph at (1,0) - preceded by no structural
    node - falls back to the root. -/
theorem claim_C2_witness :
    (best_parent
        (.node ⟨"page_1_order_0", "title", "Doc", 0, 1, 0, none, none, [], 1⟩
          [.node ⟨"page_1_order_1", "sec", "1 Intro", 1, 1, 1, none, none, [], 2⟩ [] []] [])
        (sort_by_key (collect_structural_nodes
          (.node ⟨"page_1_order_0", "title", "Doc", 0, 1, 0, none, none, [], 1⟩
            [.node ⟨"page_1_order_1", "sec", "1 Intro", 1, 1, 1, none, none, [], 2⟩ [] []] [])))
        ⟨"page_1_order_2", "para", "hello", -1, 1, 2, none, none, [], 3⟩).nid = 2 ∧
    best_parent
        (.node ⟨"page_1_order_0", "title", "Doc", 0, 1, 0, none, none, [], 1⟩
          [.node ⟨"page_1_order_1", "sec", "1 Intro", 1, 1, 1, none, none, [], 2⟩ [] []] [])
        (sort_by_key (collect_structural_nodes
          (.node ⟨"page_1_order_0", "title", "Doc", 0, 1, 0, none, none, [], 1⟩
            [.node ⟨"page_1_order_1", "sec", "1 Intro", 1, 1, 1, none, none, [], 2⟩ [] []] [])))
        ⟨"page_0_order_0", "para", "early", -1, 0, 0, none, none, [], 4⟩ =
      ⟨"page_1_order_0", "title", "Doc", 0, 1, 0, none, none, [], 1⟩ := by
  have hcol : collect_structural_nodes
      (.node ⟨"page_1_order_0", "title", "Doc", 0, 1, 0, none, none, [], 1⟩
        [.node ⟨"page_1_order_1", "sec", "1 Intro", 1, 1, 1, none, none, [], 2⟩ [] []] []) =
      [⟨"page_1_order_0", "title", "Doc", 0, 1, 0, none, none, [], 1⟩,
       ⟨"page_1_order_1", "sec", "1 Intro", 1, 1, 1, none, none, [], 2⟩] := by
    simp [collect_structural_nodes_node, is_structural]
  constructor
  · have h := (claim_C2_nearest_ancestor
      (.node ⟨"page_1_order_0", "title", "Doc", 0, 1, 0, none, none, [], 1⟩
        [.node ⟨"page_1_order_1", "sec", "1 Intro", 1, 1, 1, none, none, [], 2⟩ [] []] [])
      ⟨"page_1_order_2", "para", "hello", -1, 1, 2, none, none, [], 3⟩).1
      ⟨⟨"page_1_order_1", "sec", "1 Intro", 1, 1, 1, none, none, [], 2⟩,
        by rw [hcol]; simp, by decide⟩
    obtain ⟨hmem, hlt, hmax⟩ := h
    rw [hcol] at hmem hmax ⊢
    rcases List.mem_cons.mp hmem with hb | hb
    · exfalso
      have hle := hmax ⟨"page_1_order_1", "sec", "1 Intro", 1, 1, 1, none, none, [], 2⟩
        (by simp) (by decide)
      rw [hb] at hle
      exact absurd hle (by decide)
    · rw [List.mem_singleton] at hb
      rw [hb]
  · have h := (claim_C2_nearest_ancestor
      (.node ⟨"page_1_order_0", "title", "Doc", 0, 1, 0, none, none, [], 1⟩
        [.node ⟨"page_1_order_1", "sec", "1 Intro", 1, 1, 1, none, none, [], 2⟩ [] []] [])
      ⟨"page_0_order_0", "para", "early", -1, 0, 0, none, none, [], 4⟩).2
      (by
        rw [hcol]
        intro s hs
        rcases List.mem_cons.mp hs with hb | hb
        · rw [hb]
          decide
        · rw [List.mem_singleton] at hb
          rw [hb]
          decide)
    exact h

/- ---------------------------------------------------------------------
   C6: the summarization failure policy
--------------------------------------------------------------------- -/

/-- After a summarization pass: every structural node (and the synthetic
    document root) carries some summary, and so does every attached content
    element. -/
def allSummarized : DTree → Bool
  | .node d ch ct =>
    (!(is_structural d || d.label = "document") || d.summary.isSome) &&
      ct.all (fun c => (rootData c).summary.isSome) &&
      (ch.attach.map (fun c => allSummarized c.1)).all id
termination_by t => sizeOf t
decreasing_by
  have := List.sizeOf_lt_of_mem c.2
  simp only [DTree.node.sizeOf_spec]
  omega

theorem allSummarized_node (d : NodeData) (ch ct : List DTree) :
    allSummarized (.node d ch ct) =
      ((!(is_structural d || d.label = "document") || d.summary.isSome) &&
        ct.all (fun c => (rootData c).summary.isSome) &&
        (ch.map allSummarized).all id) := by
  rw [allSummarized]
  simp [List.attach_map_coe]

/-- C6, counterexample: when the section call fails on a structural node
    (label `sec`, text `body`), the summary becomes the section fallback
    `Summary unavailable for section sec` - which is not the claimed
    fallback format `Summary unavailable for <label>: <truncated text>`
    (here `Summary unavailable for sec: body...`): the truncated text is
    missing and the word `section` is inserted. -/
theorem claim_C6_counterexample :
    generate_section_summary
        ⟨fun _ _ => .error "down", fun _ _ _ _ => .error "down"⟩
        ⟨"page_1_order_1", "sec", "body", 1, 1, 1, none, none, [], 1⟩ [] [] =
      "Summary unavailable for section sec" ∧
    ("Summary unavailable for section sec" : String) ≠
      "Summary unavailable for sec: body..." := by
  decide

/-- C6, amended: every summarizer error is caught per-node and replaced by a
    deterministic fallback, and the pass still completes over every node; but
    the fallback format differs by node kind: a content leaf gets
    `Summary unavailable for <label>: <first 100 chars of text>...`, while a
    structural node gets `Summary unavailable for section <label>` (no text
    excerpt).  The third conjunct shows no failure aborts the pass: with any
    summarizer whatsoever, after the pass every structural node and every
    attached content element carries a summary. -/
theorem claim_C6_failure_policy :
    (∀ (s : Summarizer) (d : NodeData) (err : String),
        s.summarizeLeaf d.label d.text = .error err →
        generate_leaf_summary s d =
          "Summary unavailable for " ++ d.label ++ ": " ++ d.text.take 100 ++ "...") ∧
    (∀ (s : Summarizer) (d : NodeData) (contentData childData : List NodeData),
        (∀ a b u v, ∃ err, s.summarizeSection a b u v = .error err) →
        generate_section_summary s d contentData childData =
          "Summary unavailable for section " ++ d.label) ∧
    (∀ (s : Summarizer) (t : DTree),
        allSummarized (generate_summaries_recursive s t) = true) := by
  refine ⟨?_, ?_, ?_⟩
  · intro s d err herr
    unfold generate_leaf_summary
    rw [herr]
  · intro s d contentData childData herr
    obtain ⟨err, herr⟩ := herr d.label d.text
      (contentData.map (fun c =>
        (c.label, if truthy c.summary then c.summary.getD "" else c.text.take 200 ++ "...")))
      ((childData.filter (fun c => truthy c.summary)).map
        (fun c => (c.text, c.summary.getD "")))
    simp only [generate_section_summary, herr]
  · intro s t
    induction t using DTree.recMem with
    | h d ch ct ih1 ih2 =>
      rw [generate_summaries_recursive_node]
      simp only
      rw [allSummarized_node]
      simp only [Bool.and_eq_true, List.all_eq_true]
      refine ⟨⟨?_, ?_⟩, ?_⟩
      · split_ifs with hcond
        · simp
        · rcases Decidable.not_and_iff_or_not.mp hcond with hc | hc
          · simp only [Bool.or_eq_true, Bool.not_eq_true]
            left
            cases hst : (is_structural d || d.label = "document") with
            | false => rfl
            | true => exact absurd hst hc
          · simp only [Bool.or_eq_true]
            right
            have htr : truthy d.summary = true := by
              cases htr0 : truthy d.summary with
              | false => exact absurd (by rw [htr0]; rfl) hc
              | true => rfl
            cases hsum : d.summary with
            | none => rw [hsum] at htr; exact absurd htr (by decide)
            | some v => simp
      · intro c hc
        rcases List.mem_map.mp hc with ⟨c0, hc0, hceq⟩
        subst hceq
        cases c0 with
        | node e ech ect =>
          simp only [content_leaf_update, rootData]
          split_ifs with htr
          · cases hsum : e.summary with
            | none => rw [hsum] at htr; exact absurd htr (by decide)
            | some v => simp [hsum]
          · simp
      · intro b hb
        rcases List.mem_map.mp hb with ⟨c0, hc0, hceq⟩
        rcases List.mem_map.mp hc0 with ⟨c1, hc1, hc1eq⟩
        subst hceq hc1eq
        rw [ih1 c1 hc1]
        rfl

set_option maxRecDepth 8192 in
/-- C6, witness: the amended policy evaluated with an always-failing
    summarizer: a `para` leaf gets the leaf fallback with its text excerpt, a
    `sec` node gets the section fallback, and the full pass over a small tree
    leaves every node summarized. -/
theorem claim_C6_witness :
    generate_leaf_summary
        ⟨fun _ _ => .error "down", fun _ _ _ _ => .error "down"⟩
        ⟨"page_1_order_2", "para", "hello", -1, 1, 2, none, none, [], 2⟩ =
      "Summary unavailable for para: hello..." ∧
    generate_section_summary
        ⟨fun _ _ => .error "down", fun _ _ _ _ => .error "down"⟩
        ⟨"page_1_order_1", "sec", "Intro", 1, 1, 1, none, none, [], 1⟩ [] [] =
      "Summary unavailable for section sec" ∧
    allSummarized
        (generate_summaries_recursive
          ⟨fun _ _ => .error "down", fun _ _ _ _ => .error "down"⟩
          (.node ⟨"page_1_order_0", "title", "Doc", 0, 1, 0, none, none, [], 1⟩
            [.node ⟨"page_1_order_1", "sec", "Intro", 1, 1, 1, none, none, [], 2⟩ []
              [.node ⟨"page_1_order_2", "para", "hello", -1, 1, 2, none, none, [], 3⟩ [] []]]
            [])) = true := by
  refine ⟨?_, ?_, ?_⟩
  · have h := claim_C6_failure_policy.1
      ⟨fun _ _ => .error "down", fun _ _ _ _ => .error "down"⟩
      ⟨"page_1_order_2", "para", "hello", -1, 1, 2, none, none, [], 2⟩ "down" rfl
    rw [h]
    decide
  · exact claim_C6_failure_policy.2.1
      ⟨fun _ _ => .error "down", fun _ _ _ _ => .error "down"⟩
      ⟨"page_1_order_1", "sec", "Intro", 1, 1, 1, none, none, [], 1⟩ [] []
      (fun a b u v => ⟨"down", rfl⟩)
  · exact claim_C6_failure_policy.2.2
      ⟨fun _ _ => .error "down", fun _ _ _ _ => .error "down"⟩ _

/- ---------------------------------------------------------------------
   C7: idempotent summarization
--------------------------------------------------------------------- -/

/-- All summary fields of a tree, in pre-order (own, then children's, then
    content's). -/
def allSummaries : DTree → List (Option String)
  | .node d ch ct =>
    d.summary :: ((ch.attach.map (fun c => allSummaries c.1)).flatten ++
      (ct.attach.map (fun c => allSummaries c.1)).flatten)
termination_by t => sizeOf t
decreasing_by
  · have := List.sizeOf_lt_of_mem c.2
    simp only [DTree.node.sizeOf_spec]
    omega
  · have := List.sizeOf_lt_of_mem c.2
    simp only [DTree.node.sizeOf_spec]
    omega

theorem allSummaries_node (d : NodeData) (ch ct : List DTree) :
    allSummaries (.node d ch ct) =
      d.summary :: ((ch.map allSummaries).flatten ++ (ct.map allSummaries).flatten) := by
  rw [allSummaries]
  simp [List.attach_map_coe]

theorem forall₂_map_of_mem {R : Option String → Option String → Prop}
    (f g : DTree → List (Option String)) :
    ∀ l : List DTree, (∀ c ∈ l, List.Forall₂ R (f c) (g c)) →
      List.Forall₂ (List.Forall₂ R) (l.map f) (l.map g)
  | [], _ => List.Forall₂.nil
  | x :: xs, h =>
    List.Forall₂.cons (h x (by simp))
      (forall₂_map_of_mem f g xs (fun c hc => h c (by simp [hc])))

/-- C7: the summarization pass never alters an already-populated (truthy,
    i.e. non-empty) summary: position by position, every summary field that
    is a non-empty string before the pass is unchanged after it.  In
    particular, running the pass a second time over its own output leaves
    every non-empty summary exactly as the first pass produced it. -/
theorem claim_C7_idempotent_summaries :
    ∀ (s : Summarizer) (t : DTree),
      List.Forall₂ (fun old new => truthy old = true → new = old)
        (allSummaries t) (allSummaries (generate_summaries_recursive s t)) := by
  intro s t
  induction t using DTree.recMem with
  | h d ch ct ih1 ih2 =>
    rw [generate_summaries_recursive_node]
    simp only
    rw [allSummaries_node, allSummaries_node]
    refine List.Forall₂.cons ?_ ?_
    · intro htr
      split_ifs with hcond
      · exfalso
        rw [htr] at hcond
        simp at hcond
      · rfl
    · rw [List.map_map, List.map_map]
      refine List.rel_append ?_ ?_
      · exact List.rel_flatten
          (forall₂_map_of_mem allSummaries _ ch (fun c hc => ih1 c hc))
      · refine List.rel_flatten (forall₂_map_of_mem allSummaries _ ct (fun c hc => ?_))
        cases c with
        | node e ech ect =>
          show List.Forall₂ _ (allSummaries (.node e ech ect))
            (allSummaries (content_leaf_update s (.node e ech ect)))
          simp only [content_leaf_update]
          rw [allSummaries_node, allSummaries_node]
          refine List.Forall₂.cons ?_ ?_
          · intro htr
            rw [if_pos htr]
          · exact List.forall₂_same.mpr (fun x _ => fun _ => rfl)

/-- C7, witness: over a small tree whose section already carries the
    non-empty summary `done`, a (second) pass with a live summarizer leaves
    every previously non-empty summary unchanged. -/
theorem claim_C7_witness :
    List.Forall₂ (fun old new => truthy old = true → new = old)
      (allSummaries
        (.node ⟨"page_1_order_0", "title", "Doc", 0, 1, 0, none, some "done", [], 1⟩
          [.node ⟨"page_1_order_1", "sec", "Intro", 1, 1, 1, none, some "done", [], 2⟩ [] []]
          []))
      (allSummaries
        (generate_summaries_recursive ⟨fun _ _ => .ok "fresh", fun _ _ _ _ => .ok "fresh"⟩
          (.node ⟨"page_1_order_0", "title", "Doc", 0, 1, 0, none, some "done", [], 1⟩
            [.node ⟨"page_1_order_1", "sec", "Intro", 1, 1, 1, none, some "done", [], 2⟩ [] []]
            []))) :=
  claim_C7_idempotent_summaries
    ⟨fun _ _ => .ok "fresh", fun _ _ _ _ => .ok "fresh"⟩
    (.node ⟨"page_1_order_0", "title", "Doc", 0, 1, 0, none, some "done", [], 1⟩
      [.node ⟨"page_1_order_1", "sec", "Intro", 1, 1, 1, none, some "done", [], 2⟩ [] []]
      [])

/- ---------------------------------------------------------------------
   C5: level monotonicity along children paths
--------------------------------------------------------------------- -/

/-- Levels strictly increase along every `children` edge (equivalently,
    along every root-to-node path that follows only `children` links;
    `content_elements` are not children links). -/
inductive Mono : DTree → Prop where
  | node : ∀ (d : NodeData) (ch ct : List DTree),
      (∀ c ∈ ch, d.level < (rootData c).level) →
      (∀ c ∈ ch, Mono c) →
      Mono (.node d ch ct)

/-- Every already-closed child of an open frame is monotone and deeper than
    the frame's own node. -/
def FrameOK (f : Frame) : Prop :=
  ∀ t ∈ f.2, f.1.level < (rootData t).level ∧ Mono t

/-- The open-frame stack is well-formed: frames are good, levels strictly
    decrease towards the bottom, and the bottom frame (the root) has level
    ≤ 0 (level 0 for a title root, −1 for the synthetic document root;
    this mirrors the dict key 0 holding the root). -/
def StackOK : List Frame → Prop
  | [] => False
  | [f] => f.1.level ≤ 0 ∧ FrameOK f
  | f :: g :: rest => FrameOK f ∧ g.1.level < f.1.level ∧ StackOK (g :: rest)

theorem rootData_closeFrame (f : Frame) : rootData (closeFrame f) = f.1 := rfl

theorem mono_closeFrame (f : Frame) (h : FrameOK f) : Mono (closeFrame f) :=
  Mono.node f.1 f.2.reverse []
    (fun c hc => (h c (List.mem_reverse.mp hc)).1)
    (fun c hc => (h c (List.mem_reverse.mp hc)).2)

theorem StackOK_head_frameOK : ∀ (rest : List Frame) (f : Frame),
    StackOK (f :: rest) → FrameOK f
  | [], _, h => h.2
  | _ :: _, _, h => h.1

theorem StackOK_set_frame : ∀ (rest : List Frame) (f : Frame) (cs' : List DTree),
    StackOK (f :: rest) → FrameOK (f.1, cs') → StackOK ((f.1, cs') :: rest)
  | [], f, cs', h, hok => ⟨h.1, hok⟩
  | _ :: _, f, cs', h, hok => ⟨hok, h.2.1, h.2.2⟩

/-- The frame pushed on top of the merged frame below during a pop is good:
    the closed frame is monotone and deeper than the node below. -/
theorem merged_frame_ok (f g : Frame) (rest : List Frame)
    (h : StackOK (f :: g :: rest)) : FrameOK (g.1, closeFrame f :: g.2) := by
  intro t ht
  rcases List.mem_cons.mp ht with ht | ht
  · subst ht
    exact ⟨by rw [rootData_closeFrame]; exact h.2.1, mono_closeFrame _ h.1⟩
  · exact StackOK_head_frameOK rest g h.2.2 t ht

theorem popTo_ok (L : Int) (hL : 1 ≤ L) :
    ∀ (rest : List Frame) (f : Frame), StackOK (f :: rest) →
      ∃ f' rest', popTo L f rest = f' :: rest' ∧ StackOK (f' :: rest') ∧ f'.1.level < L
  | [], f, h => ⟨f, [], rfl, h, by
      have := h.1
      omega⟩
  | g :: rest', f, h => by
    by_cases hcond : L ≤ f.1.level
    · have hmerge : popTo L f (g :: rest') =
          popTo L (g.1, closeFrame f :: g.2) rest' := by
        simp only [popTo, if_pos hcond]
      rw [hmerge]
      exact popTo_ok L hL rest' (g.1, closeFrame f :: g.2)
        (StackOK_set_frame rest' g _ h.2.2 (merged_frame_ok f g rest' h))
    · have hstop : popTo L f (g :: rest') = f :: g :: rest' := by
        simp only [popTo, if_neg hcond]
      exact ⟨f, g :: rest', hstop, h, by omega⟩

theorem insertStructural_ok (n : NodeData) :
    ∀ st : List Frame, StackOK st → StackOK (insertStructural st n) := by
  intro st h
  unfold insertStructural
  by_cases hlev : n.level ≤ 0
  · rw [if_pos hlev]
    exact h
  · rw [if_neg hlev]
    match st, h with
    | [], h => exact absurd h id
    | f :: rest, h =>
      obtain ⟨f', rest', heq, hok, hlt⟩ := popTo_ok n.level (by omega) rest f h
      simp only [heq]
      exact ⟨fun t ht => absurd ht (List.not_mem_nil t), hlt, hok⟩

theorem foldl_insertStructural_ok :
    ∀ (ns : List NodeData) (st : List Frame), StackOK st →
      StackOK (ns.foldl insertStructural st)
  | [], _, h => h
  | n :: ns, st, h =>
    foldl_insertStructural_ok ns (insertStructural st n) (insertStructural_ok n st h)

theorem closeAll_mono :
    ∀ (rest : List Frame) (f : Frame), StackOK (f :: rest) → Mono (closeAll f rest)
  | [], f, h => mono_closeFrame f h.2
  | g :: rest', f, h => by
    show Mono (closeAll (g.1, closeFrame f :: g.2) rest')
    exact closeAll_mono rest' (g.1, closeFrame f :: g.2)
      (StackOK_set_frame rest' g _ h.2.2 (merged_frame_ok f g rest' h))

theorem build_unlimited_depth_hierarchy_mono (root : NodeData) (ns : List NodeData)
    (hroot : root.level ≤ 0) : Mono (build_unlimited_depth_hierarchy root ns) := by
  unfold build_unlimited_depth_hierarchy
  have hok := foldl_insertStructural_ok ns [(root, [])]
    ⟨hroot, fun t ht => absurd ht (List.not_mem_nil t)⟩
  match heq : ns.foldl insertStructural [(root, [])], hok with
  | [], hok => exact absurd hok id
  | f :: rest, hok => exact closeAll_mono rest f hok

theorem assignNids_level :
    ∀ (ps : List (Int × RawElement)) (k : Nat) (n : NodeData),
      n ∈ assignNids k ps → n.level = levelOfLabel n.label
  | [], _, _, h => absurd h (List.not_mem_nil _)
  | (pn, e) :: rest, k, n, h => by
    rcases List.mem_cons.mp h with h | h
    · subst h
      rfl
    · exact assignNids_level rest (k + 1) n h

theorem all_elements_sorted_level (json_data : RawDoc) :
    ∀ n ∈ all_elements_sorted json_data, n.level = levelOfLabel n.label := by
  intro n hn
  have hperm : List.Perm (all_elements_sorted json_data) (create_all_nodes json_data) :=
    List.perm_insertionSort keyLe (create_all_nodes json_data)
  exact assignNids_level (create_page_pairs json_data) 1 n (hperm.mem_iff.mp hn)

theorem extractTitle_spec :
    ∀ (l : List NodeData) (r : NodeData) (rest : List NodeData),
      extractTitle l = some (r, rest) → r.label = "title" ∧ r ∈ l
  | [], r, rest, h => by
    simp [extractTitle] at h
  | n :: t, r, rest, h => by
    simp only [extractTitle] at h
    by_cases hn : n.label = "title"
    · rw [if_pos hn] at h
      rcases Option.some.injEq _ _ |>.mp h with heq
      obtain ⟨h1, h2⟩ := Prod.mk.injEq _ _ _ _ |>.mp heq
      subst h1
      exact ⟨hn, by simp⟩
    · rw [if_neg hn] at h
      match hrec : extractTitle t with
      | none => rw [hrec] at h; simp at h
      | some (r', rest') =>
        rw [hrec] at h
        simp only [Option.map_some', Option.some.injEq] at h
        obtain ⟨h1, h2⟩ := Prod.mk.injEq _ _ _ _ |>.mp h
        subst h1
        have hspec := extractTitle_spec t r' rest' hrec
        exact ⟨hspec.1, by simp [hspec.2]⟩

theorem root_split_level (json_data : RawDoc) : (root_split json_data).1.level ≤ 0 := by
  unfold root_split
  match heq : extractTitle (structural_nodes_of json_data) with
  | none => exact (by decide : document_root.level ≤ 0)
  | some (r, rest) =>
    show r.level ≤ 0
    obtain ⟨hlab, hmem⟩ := extractTitle_spec _ r rest heq
    have hstruct : r ∈ all_elements_sorted json_data :=
      List.mem_of_mem_filter (by simpa [structural_nodes_of] using hmem)
    have hlev := all_elements_sorted_level json_data r hstruct
    rw [hlev, hlab]
    decide

theorem rootData_attach_content (t : DTree) (asg : List (NodeData × Nat)) :
    rootData (attach_content t asg) = rootData t := by
  cases t with
  | node d ch ct =>
    rw [attach_content_node]
    rfl

theorem mono_attach_content (asg : List (NodeData × Nat)) :
    ∀ t : DTree, Mono t → Mono (attach_content t asg) := by
  intro t
  induction t using DTree.recMem with
  | h d ch ct ih1 ih2 =>
    intro hm
    cases hm with
    | node _ _ _ hlev hmono =>
      rw [attach_content_node]
      refine Mono.node _ _ _ ?_ ?_
      · intro c' hc'
        rcases List.mem_map.mp hc' with ⟨c, hc, hceq⟩
        subst hceq
        rw [rootData_attach_content]
        exact hlev c hc
      · intro c' hc'
        rcases List.mem_map.mp hc' with ⟨c, hc, hceq⟩
        subst hceq
        exact ih1 c hc (hmono c hc)

theorem rootData_gen_level (s : Summarizer) (t : DTree) :
    (rootData (generate_summaries_recursive s t)).level = (rootData t).level := by
  cases t with
  | node d ch ct =>
    rw [generate_summaries_recursive_node]
    simp only [rootData]
    split_ifs <;> rfl

theorem mono_generate_summaries (s : Summarizer) :
    ∀ t : DTree, Mono t → Mono (generate_summaries_recursive s t) := by
  intro t
  induction t using DTree.recMem with
  | h d ch ct ih1 ih2 =>
    intro hm
    cases hm with
    | node _ _ _ hlev hmono =>
      rw [generate_summaries_recursive_node]
      simp only
      refine Mono.node _ _ _ ?_ ?_
      · intro c' hc'
        rcases List.mem_map.mp hc' with ⟨c, hc, hceq⟩
        subst hceq
        rw [rootData_gen_level]
        have hd2 : (if (is_structural d || d.label = "document") && !truthy d.summary then
            { d with summary := some (generate_section_summary s d
              ((ct.map (content_leaf_update s)).map rootData)
              ((ch.map (generate_summaries_recursive s)).map rootData)) }
          else d).level = d.level := by
          split_ifs <;> rfl
        rw [hd2]
        exact hlev c hc
      · intro c' hc'
        rcases List.mem_map.mp hc' with ⟨c, hc, hceq⟩
        subst hceq
        exact ih1 c hc (hmono c hc)

/-- C5: in the emitted tree, levels strictly increase along every
    `children` edge, hence along every root-to-node path that follows only
    children links. -/
theorem claim_C5_level_monotonicity :
    ∀ (json_data : RawDoc) (s : Summarizer) (enable_summaries : Bool),
      Mono (build_enhanced_hierarchy json_data s enable_summaries) := by
  intro json_data s b
  have hassembled : Mono (assembled_tree json_data) := by
    unfold assembled_tree assign_content_as_leaf_nodes
    exact mono_attach_content _ _
      (build_unlimited_depth_hierarchy_mono _ _ (root_split_level json_data))
  unfold build_enhanced_hierarchy
  by_cases hb : b = true
  · rw [if_pos hb]
    exact mono_generate_summaries s _ hassembled
  · rw [if_neg hb]
    exact hassembled

/- ---------------------------------------------------------------------
   C1: attachment totality.

   `nid` models Python object identity, so "node X appears in exactly one
   children list" becomes "X.nid occurs exactly once among the identities of
   the non-root nodes of the emitted tree".  `treeNids` lists the identity
   of every node reachable through `children` (the root first); since the
   root's identity differs from every created node that is not the root,
   a count of 1 in `treeNids` for such a node is exactly "one parent".
   `contentNids` lists the identity of every attached content element, so a
   count of 1 is "in exactly one `content_elements` list".
--------------------------------------------------------------------- -/

/-- Identities of all nodes of the children-closure, root first. -/
def treeNids : DTree → List Nat
  | .node d ch _ => d.nid :: (ch.attach.map (fun c => treeNids c.1)).flatten
termination_by t => sizeOf t
decreasing_by
  have := List.sizeOf_lt_of_mem c.2
  simp only [DTree.node.sizeOf_spec]
  omega

theorem treeNids_node (d : NodeData) (ch ct : List DTree) :
    treeNids (.node d ch ct) = d.nid :: (ch.map treeNids).flatten := by
  rw [treeNids]
  simp [List.attach_map_coe]

/-- Identities of all content elements attached anywhere in the
    children-closure. -/
def contentNids : DTree → List Nat
  | .node _ ch ct =>
    ct.map (fun c => (rootData c).nid) ++
      (ch.attach.map (fun c => contentNids c.1)).flatten
termination_by t => sizeOf t
decreasing_by
  have := List.sizeOf_lt_of_mem c.2
  simp only [DTree.node.sizeOf_spec]
  omega

theorem contentNids_node (d : NodeData) (ch ct : List DTree) :
    contentNids (.node d ch ct) =
      ct.map (fun c => (rootData c).nid) ++ (ch.map contentNids).flatten := by
  rw [contentNids]
  simp [List.attach_map_coe]

/-- Identities held by one open frame. -/
def frameNids (f : Frame) : List Nat :=
  f.1.nid :: (f.2.map treeNids).flatten

/-- Identities held by the whole open-frame stack. -/
def stackNids (st : List Frame) : List Nat :=
  (st.map frameNids).flatten

theorem count_treeNids_closeFrame (k : Nat) (f : Frame) :
    (treeNids (closeFrame f)).count k = (frameNids f).count k := by
  show (treeNids (.node f.1 f.2.reverse [])).count k = _
  rw [treeNids_node]
  unfold frameNids
  simp [List.count_cons, List.count_flatten, List.map_reverse, List.sum_reverse]

theorem stackNids_cons (f : Frame) (st : List Frame) :
    stackNids (f :: st) = frameNids f ++ stackNids st := rfl

theorem count_frameNids (k : Nat) (f : Frame) :
    (frameNids f).count k =
      (if f.1.nid = k then 1 else 0) + ((f.2.map treeNids).flatten).count k := by
  simp [frameNids, List.count_cons, beq_iff_eq]
  omega

theorem count_frameNids_merge (k : Nat) (f g : Frame) :
    (frameNids (g.1, closeFrame f :: g.2)).count k =
      (frameNids f).count k + (frameNids g).count k := by
  rw [count_frameNids, count_frameNids]
  simp only [List.map_cons, List.flatten_cons, List.count_append,
    count_treeNids_closeFrame, count_frameNids]
  omega

theorem count_stackNids_popTo (k : Nat) (L : Int) :
    ∀ (rest : List Frame) (f : Frame),
      (stackNids (popTo L f rest)).count k = (stackNids (f :: rest)).count k
  | [], f => rfl
  | g :: rest', f => by
    by_cases hcond : L ≤ f.1.level
    · rw [show popTo L f (g :: rest') = popTo L (g.1, closeFrame f :: g.2) rest' by
        simp only [popTo, if_pos hcond]]
      rw [count_stackNids_popTo k L rest' (g.1, closeFrame f :: g.2)]
      simp only [stackNids_cons, List.count_append, count_frameNids_merge]
      omega
    · rw [show popTo L f (g :: rest') = f :: g :: rest' by
        simp only [popTo, if_neg hcond]]

theorem count_stackNids_insert (k : Nat) (n : NodeData) (st : List Frame) :
    (stackNids (insertStructural st n)).count k =
      (if n.level ≤ 0 then 0 else if n.nid = k then 1 else 0) +
        (stackNids st).count k := by
  unfold insertStructural
  by_cases hlev : n.level ≤ 0
  · simp only [if_pos hlev]
    omega
  · simp only [if_neg hlev]
    match st with
    | [] =>
      show (stackNids [(n, [])]).count k = _
      rw [stackNids_cons, List.count_append, count_frameNids]
      simp [stackNids]
    | f :: rest =>
      show (stackNids ((n, []) :: popTo n.level f rest)).count k = _
      rw [stackNids_cons, List.count_append, count_frameNids,
        count_stackNids_popTo k n.level rest f]
      simp

/-- Identities of the nodes the loop actually inserts: those at level ≥ 1. -/
def inserted_nids (ns : List NodeData) : List Nat :=
  (ns.filter (fun n => !decide (n.level ≤ 0))).map (fun n => n.nid)

theorem count_stackNids_foldl (k : Nat) :
    ∀ (ns : List NodeData) (st : List Frame),
      (stackNids (ns.foldl insertStructural st)).count k =
        (stackNids st).count k + (inserted_nids ns).count k
  | [], st => by simp [inserted_nids]
  | n :: ns, st => by
    show (stackNids (ns.foldl insertStructural (insertStructural st n))).count k = _
    rw [count_stackNids_foldl k ns (insertStructural st n), count_stackNids_insert k n st]
    unfold inserted_nids
    by_cases hlev : n.level ≤ 0
    · rw [List.filter_cons_of_neg (by simp [hlev])]
      simp only [if_pos hlev]
      omega
    · rw [List.filter_cons_of_pos (by simp [hlev])]
      simp only [List.map_cons, List.count_cons, beq_iff_eq, if_neg hlev]
      omega

theorem count_treeNids_closeAll (k : Nat) :
    ∀ (rest : List Frame) (f : Frame),
      (treeNids (closeAll f rest)).count k = (stackNids (f :: rest)).count k
  | [], f => by
    show (treeNids (closeFrame f)).count k = _
    rw [count_treeNids_closeFrame]
    simp [stackNids]
  | g :: rest', f => by
    show (treeNids (closeAll (g.1, closeFrame f :: g.2) rest')).count k = _
    rw [count_treeNids_closeAll k rest' (g.1, closeFrame f :: g.2)]
    simp only [stackNids_cons, List.count_append, count_frameNids_merge]
    omega

theorem foldl_insertStructural_ne_nil :
    ∀ (ns : List NodeData) (st : List Frame), st ≠ [] →
      ns.foldl insertStructural st ≠ []
  | [], st, h => h
  | n :: ns, st, h => by
    show ns.foldl insertStructural (insertStructural st n) ≠ []
    refine foldl_insertStructural_ne_nil ns _ ?_
    unfold insertStructural
    by_cases hlev : n.level ≤ 0
    · simp only [if_pos hlev]
      exact h
    · simp only [if_neg hlev]
      match st, h with
      | [], h => exact absurd rfl h
      | f :: rest, _ => simp

theorem count_treeNids_build (k : Nat) (root : NodeData) (ns : List NodeData) :
    (treeNids (build_unlimited_depth_hierarchy root ns)).count k =
      (if root.nid = k then 1 else 0) + (inserted_nids ns).count k := by
  unfold build_unlimited_depth_hierarchy
  have hne := foldl_insertStructural_ne_nil ns [(root, [])] (by simp)
  match heq : ns.foldl insertStructural [(root, [])] with
  | [] => exact absurd heq hne
  | f :: rest =>
    have h1 := count_treeNids_closeAll k rest f
    rw [h1, ← heq, count_stackNids_foldl k ns [(root, [])]]
    rw [show stackNids [(root, [])] = [root.nid] from rfl]
    simp [List.count_cons, beq_iff_eq]

theorem treeNids_attach_content (asg : List (NodeData × Nat)) :
    ∀ t : DTree, treeNids (attach_content t asg) = treeNids t := by
  intro t
  induction t using DTree.recMem with
  | h d ch ct ih1 ih2 =>
    rw [attach_content_node, treeNids_node, treeNids_node]
    congr 1
    rw [List.map_map]
    congr 1
    exact List.map_congr_left (fun c hc => ih1 c hc)

theorem gen_root_nid (s : Summarizer) (t : DTree) :
    (rootData (generate_summaries_recursive s t)).nid = (rootData t).nid := by
  cases t with
  | node d ch ct =>
    rw [generate_summaries_recursive_node]
    simp only [rootData]
    split_ifs <;> rfl

theorem treeNids_gen (s : Summarizer) :
    ∀ t : DTree, treeNids (generate_summaries_recursive s t) = treeNids t := by
  intro t
  induction t using DTree.recMem with
  | h d ch ct ih1 ih2 =>
    rw [generate_summaries_recursive_node]
    simp only
    rw [treeNids_node, treeNids_node]
    congr 1
    · split_ifs <;> rfl
    · rw [List.map_map]
      congr 1
      exact List.map_congr_left (fun c hc => ih1 c hc)

theorem content_leaf_update_root_nid (s : Summarizer) (c : DTree) :
    (rootData (content_leaf_update s c)).nid = (rootData c).nid := by
  cases c with
  | node e ech ect =>
    simp only [content_leaf_update, rootData]
    split_ifs <;> rfl

theorem contentNids_gen (s : Summarizer) :
    ∀ t : DTree, contentNids (generate_summaries_recursive s t) = contentNids t := by
  intro t
  induction t using DTree.recMem with
  | h d ch ct ih1 ih2 =>
    rw [generate_summaries_recursive_node]
    simp only
    rw [contentNids_node, contentNids_node]
    congr 1
    · rw [List.map_map]
      exact List.map_congr_left (fun c hc => content_leaf_update_root_nid s c)
    · rw [List.map_map]
      congr 1
      exact List.map_congr_left (fun c hc => ih1 c hc)

/- Distinctness of the identity tags along the pipeline. -/

theorem assignNids_map_nid :
    ∀ (ps : List (Int × RawElement)) (k : Nat),
      (assignNids k ps).map (fun n => n.nid) = List.range' k ps.length
  | [], _ => rfl
  | (pn, e) :: rest, k => by
    show (create_node_from_element e pn k).nid :: (assignNids (k + 1) rest).map _ = _
    rw [assignNids_map_nid rest (k + 1)]
    rfl

theorem create_all_nodes_nid_nodup (json_data : RawDoc) :
    ((create_all_nodes json_data).map (fun n => n.nid)).Nodup := by
  unfold create_all_nodes
  rw [assignNids_map_nid]
  exact List.nodup_range' 1 _

theorem create_all_nodes_nid_pos (json_data : RawDoc) :
    ∀ n ∈ create_all_nodes json_data, 1 ≤ n.nid := by
  intro n hn
  have hmem : n.nid ∈ (create_all_nodes json_data).map (fun n => n.nid) :=
    List.mem_map.mpr ⟨n, hn, rfl⟩
  rw [create_all_nodes, assignNids_map_nid] at hmem
  exact (List.mem_range'_1.mp hmem).1

theorem all_elements_sorted_perm (json_data : RawDoc) :
    List.Perm (all_elements_sorted json_data) (create_all_nodes json_data) :=
  List.perm_insertionSort keyLe (create_all_nodes json_data)

theorem all_elements_sorted_nid_nodup (json_data : RawDoc) :
    ((all_elements_sorted json_data).map (fun n => n.nid)).Nodup :=
  (((all_elements_sorted_perm json_data).map (fun n => n.nid)).nodup_iff).mpr
    (create_all_nodes_nid_nodup json_data)

theorem structural_nodes_nid_nodup (json_data : RawDoc) :
    ((structural_nodes_of json_data).map (fun n => n.nid)).Nodup :=
  List.Nodup.sublist
    (List.Sublist.map (fun n => n.nid) (List.filter_sublist (all_elements_sorted json_data)))
    (all_elements_sorted_nid_nodup json_data)

theorem structural_nodes_nid_pos (json_data : RawDoc) :
    ∀ n ∈ structural_nodes_of json_data, 1 ≤ n.nid := by
  intro n hn
  exact create_all_nodes_nid_pos json_data n
    ((all_elements_sorted_perm json_data).mem_iff.mp (List.mem_of_mem_filter hn))

theorem extractTitle_split :
    ∀ (l : List NodeData) (r : NodeData) (rest : List NodeData),
      extractTitle l = some (r, rest) →
      ∃ l1 l2, l = l1 ++ r :: l2 ∧ rest = l1 ++ l2
  | [], r, rest, h => by simp [extractTitle] at h
  | n :: t, r, rest, h => by
    simp only [extractTitle] at h
    by_cases hn : n.label = "title"
    · rw [if_pos hn] at h
      obtain ⟨h1, h2⟩ := Prod.mk.injEq _ _ _ _ |>.mp (Option.some.injEq _ _ |>.mp h)
      subst h1
      subst h2
      exact ⟨[], t, rfl, rfl⟩
    · rw [if_neg hn] at h
      match hrec : extractTitle t with
      | none => rw [hrec] at h; simp at h
      | some (r', rest') =>
        rw [hrec] at h
        simp only [Option.map_some', Option.some.injEq] at h
        obtain ⟨h1, h2⟩ := Prod.mk.injEq _ _ _ _ |>.mp h
        subst h1
        subst h2
        obtain ⟨l1, l2, hl, hr⟩ := extractTitle_split t r' rest' hrec
        exact ⟨n :: l1, l2, by simp [hl], by simp [hr]⟩

/-- The chosen root's identity is fresh for the remaining structural list,
    whose identities are themselves distinct, and the remaining structural
    nodes all come from the structural list. -/
theorem root_split_props (json_data : RawDoc) :
    ((root_split json_data).2.map (fun n => n.nid)).Nodup ∧
      (root_split json_data).1.nid ∉ (root_split json_data).2.map (fun n => n.nid) ∧
      ∀ n ∈ (root_split json_data).2, n ∈ structural_nodes_of json_data := by
  unfold root_split
  match heq : extractTitle (structural_nodes_of json_data) with
  | none =>
    refine ⟨structural_nodes_nid_nodup json_data, ?_, fun n hn => hn⟩
    intro hmem
    rcases List.mem_map.mp hmem with ⟨n, hn, hnid⟩
    have := structural_nodes_nid_pos json_data n hn
    rw [show document_root.nid = 0 from rfl] at hnid
    omega
  | some (r, rest) =>
    obtain ⟨l1, l2, hl, hr⟩ := extractTitle_split _ r rest heq
    have hperm : List.Perm ((structural_nodes_of json_data).map (fun n => n.nid))
        (r.nid :: (l1 ++ l2).map (fun n => n.nid)) := by
      rw [hl]
      simp only [List.map_append, List.map_cons]
      exact List.perm_middle
    have hnodup : (r.nid :: (l1 ++ l2).map (fun n => n.nid)).Nodup :=
      hperm.nodup_iff.mp (structural_nodes_nid_nodup json_data)
    rw [List.nodup_cons] at hnodup
    refine ⟨by rw [hr]; exact hnodup.2, by rw [hr]; exact hnodup.1, ?_⟩
    intro n hn
    rw [hr] at hn
    rw [hl]
    rcases List.mem_append.mp hn with hn | hn
    · exact List.mem_append.mpr (Or.inl hn)
    · exact List.mem_append.mpr (Or.inr (by simp [hn]))

theorem nid_unique_of_nodup :
    ∀ (l : List NodeData), ((l.map (fun n => n.nid)).Nodup) →
      ∀ n ∈ l, ∀ n' ∈ l, n'.nid = n.nid → n' = n
  | [], _, n, hn, _, _, _ => absurd hn (List.not_mem_nil n)
  | x :: xs, hnd, n, hn, n', hn', heq => by
    rw [List.map_cons, List.nodup_cons] at hnd
    rcases List.mem_cons.mp hn with hn | hn <;>
      rcases List.mem_cons.mp hn' with hn' | hn'
    · rw [hn, hn']
    · exact absurd (List.mem_map.mpr ⟨n', hn', by rw [heq, hn]⟩) hnd.1
    · exact absurd (List.mem_map.mpr ⟨n, hn, by rw [← heq, hn']⟩) hnd.1
    · exact nid_unique_of_nodup xs hnd.2 n hn n' hn' heq

theorem merge_with_nid (a b : NodeData) : (merge_with a b).nid = a.nid := by
  unfold merge_with
  split_ifs <;> rfl

theorem merge_figure_caption_pairs_nid_sublist :
    ∀ l : List NodeData,
      ((merge_figure_caption_pairs l).map (fun n => n.nid)).Sublist
        (l.map (fun n => n.nid))
  | [] => List.Sublist.refl _
  | [x] => List.Sublist.refl _
  | x :: y :: rest => by
    simp only [merge_figure_caption_pairs]
    split_ifs with h
    · simp only [List.map_cons]
      rw [merge_with_nid]
      exact List.Sublist.cons₂ _
        (List.Sublist.cons _ (merge_figure_caption_pairs_nid_sublist rest))
    · simp only [List.map_cons]
      exact List.Sublist.cons₂ _ (merge_figure_caption_pairs_nid_sublist (y :: rest))

theorem mclGo_nid_sublist :
    ∀ (l : List NodeData) (st : Option (NodeData × Int × Int)),
      ((mclGo st l).map (fun n => n.nid)).Sublist
        ((match st with | none => [] | some (g, _, _) => [g.nid]) ++
          l.map (fun n => n.nid))
  | [], none => List.Sublist.refl _
  | [], some (g, hp, po) => by
    show [g.nid].Sublist ([g.nid] ++ [])
    simp
  | x :: rest, none => by
    simp only [mclGo]
    split_ifs with hx
    · have h := mclGo_nid_sublist rest (some (x, x.page, x.reading_order))
      simpa using h
    · simp only [List.map_cons, List.nil_append]
      exact List.Sublist.cons₂ _ (by simpa using mclGo_nid_sublist rest none)
  | x :: rest, some (g, hp, po) => by
    simp only [mclGo]
    split_ifs with hm hx
    · have h : (List.map (fun n => n.nid)
          (mclGo (some (merge_with g x, hp, x.reading_order)) rest)).Sublist
          ([(merge_with g x).nid] ++ List.map (fun n => n.nid) rest) :=
        mclGo_nid_sublist rest (some (merge_with g x, hp, x.reading_order))
      rw [merge_with_nid] at h
      refine h.trans ?_
      exact List.Sublist.append_left
        (List.Sublist.cons _ (List.Sublist.refl _)) [g.nid]
    · simp only [List.map_cons]
      exact List.Sublist.cons₂ _
        (by simpa using mclGo_nid_sublist rest (some (x, x.page, x.reading_order)))
    · simp only [List.map_cons]
      exact List.Sublist.cons₂ _ (List.Sublist.cons₂ _
        (by simpa using mclGo_nid_sublist rest none))

theorem content_nodes_nid_nodup (json_data : RawDoc) :
    ((content_nodes_of json_data).map (fun n => n.nid)).Nodup := by
  unfold content_nodes_of merge_consecutive_lists
  have h1 := mclGo_nid_sublist
    (merge_figure_caption_pairs
      ((all_elements_sorted json_data).filter (fun n => is_content n))) none
  simp only [List.nil_append] at h1
  have h2 := merge_figure_caption_pairs_nid_sublist
    ((all_elements_sorted json_data).filter (fun n => is_content n))
  have h3 : (((all_elements_sorted json_data).filter
      (fun n => is_content n)).map (fun n => n.nid)).Nodup :=
    List.Nodup.sublist (List.Sublist.map _ (List.filter_sublist _))
      (all_elements_sorted_nid_nodup json_data)
  exact List.Nodup.sublist (h1.trans h2) h3

theorem collect_nid_mem :
    ∀ t : DTree, ∀ x ∈ collect_structural_nodes t, x.nid ∈ treeNids t := by
  intro t
  induction t using DTree.recMem with
  | h d ch ct ih1 ih2 =>
    intro x hx
    rw [collect_structural_nodes_node] at hx
    rw [treeNids_node]
    rcases List.mem_append.mp hx with hx | hx
    · by_cases hc : (is_structural d || d.label = "document") = true
      · rw [if_pos hc, List.mem_singleton] at hx
        rw [hx]
        exact List.mem_cons_self _ _
      · rw [if_neg hc] at hx
        exact absurd hx (List.not_mem_nil x)
    · rcases List.mem_flatten.mp hx with ⟨lx, hlx, hxin⟩
      rcases List.mem_map.mp hlx with ⟨c, hc, hceq⟩
      subst hceq
      exact List.mem_cons_of_mem _
        (List.mem_flatten.mpr ⟨treeNids c, List.mem_map.mpr ⟨c, hc, rfl⟩, ih1 c hc x hxin⟩)

theorem best_parent_scan_mem (c : NodeData) :
    ∀ (l : List NodeData) (best : NodeData), best_parent_scan c best l ∈ best :: l
  | [], best => by simp [best_parent_scan]
  | s :: rest, best => by
    simp only [best_parent_scan]
    split_ifs with h
    · exact List.mem_cons_of_mem _ (best_parent_scan_mem c rest s)
    · exact List.mem_cons_self _ _

theorem treeNids_head (t : DTree) : (rootData t).nid ∈ treeNids t := by
  cases t with
  | node d ch ct =>
    rw [treeNids_node]
    exact List.mem_cons_self _ _

theorem structural_tree_nid_nodup (json_data : RawDoc) :
    (treeNids (structural_tree json_data)).Nodup := by
  obtain ⟨hnd, hnotin, hsub⟩ := root_split_props json_data
  rw [List.nodup_iff_count_le_one]
  intro k
  unfold structural_tree
  rw [count_treeNids_build]
  have hsubl : (inserted_nids (root_split json_data).2).Sublist
      ((root_split json_data).2.map (fun n => n.nid)) :=
    List.Sublist.map _ (List.filter_sublist _)
  have hle := hsubl.count_le k
  have hle2 := List.nodup_iff_count_le_one.mp hnd k
  by_cases hroot : (root_split json_data).1.nid = k
  · rw [if_pos hroot]
    have h0 : ((root_split json_data).2.map (fun n => n.nid)).count k = 0 := by
      rw [List.count_eq_zero, ← hroot]
      exact hnotin
    omega
  · rw [if_neg hroot]
    omega

theorem best_parent_nid_mem (json_data : RawDoc) (c : NodeData) :
    (best_parent (structural_tree json_data)
        (sort_by_key (collect_structural_nodes (structural_tree json_data))) c).nid ∈
      treeNids (structural_tree json_data) := by
  have hmem := best_parent_scan_mem c
    (sort_by_key (collect_structural_nodes (structural_tree json_data)))
    (rootData (structural_tree json_data))
  rcases List.mem_cons.mp hmem with h | h
  · rw [show best_parent (structural_tree json_data)
        (sort_by_key (collect_structural_nodes (structural_tree json_data))) c =
        best_parent_scan c (rootData (structural_tree json_data))
          (sort_by_key (collect_structural_nodes (structural_tree json_data))) from rfl, h]
    exact treeNids_head _
  · exact collect_nid_mem _ _
      ((List.perm_insertionSort keyLe _).mem_iff.mp h)

theorem pair_eq_of_count_one :
    ∀ (asg : List (NodeData × Nat)) (c0 : NodeData × Nat),
      c0 ∈ asg → (asg.map (fun p => p.1.nid)).count c0.1.nid = 1 →
      ∀ p ∈ asg, p.1.nid = c0.1.nid → p = c0
  | [], c0, hmem, _, p, hp, _ => absurd hmem (List.not_mem_nil c0)
  | x :: xs, c0, hmem, hcnt, p, hp, hpn => by
    simp only [List.map_cons, List.count_cons, beq_iff_eq] at hcnt
    rcases List.mem_cons.mp hmem with hc | hc <;> rcases List.mem_cons.mp hp with hpx | hpx
    · rw [hpx, hc]
    · exfalso
      have hxeq : x.1.nid = c0.1.nid := by rw [hc]
      rw [if_pos hxeq] at hcnt
      have hpos : 0 < (xs.map (fun q => q.1.nid)).count c0.1.nid :=
        List.count_pos_iff.mpr (List.mem_map.mpr ⟨p, hpx, hpn⟩)
      omega
    · exfalso
      have hxeq : x.1.nid = c0.1.nid := by rw [← hpx]; exact hpn
      rw [if_pos hxeq] at hcnt
      have hpos : 0 < (xs.map (fun q => q.1.nid)).count c0.1.nid :=
        List.count_pos_iff.mpr (List.mem_map.mpr ⟨c0, hc, rfl⟩)
      omega
    · by_cases hxn : x.1.nid = c0.1.nid
      · exfalso
        rw [if_pos hxn] at hcnt
        have hpos : 0 < (xs.map (fun q => q.1.nid)).count c0.1.nid :=
          List.count_pos_iff.mpr (List.mem_map.mpr ⟨c0, hc, rfl⟩)
        omega
      · rw [if_neg hxn] at hcnt
        exact pair_eq_of_count_one xs c0 hc (by omega) p hpx hpn

theorem count_filter_map_nid :
    ∀ (asg : List (NodeData × Nat)) (c0 : NodeData × Nat) (m : Nat),
      (∀ p ∈ asg, p.1.nid = c0.1.nid → p = c0) →
      (((asg.filter (fun p => p.2 = m)).map (fun p => p.1.nid)).count c0.1.nid) =
        if c0.2 = m then (asg.map (fun p => p.1.nid)).count c0.1.nid else 0
  | [], c0, m, _ => by simp
  | x :: xs, c0, m, hall => by
    have hrec := count_filter_map_nid xs c0 m (fun p hp hn => hall p (by simp [hp]) hn)
    by_cases hx2 : x.2 = m
    · rw [List.filter_cons_of_pos (by simp [hx2])]
      simp only [List.map_cons, List.count_cons, beq_iff_eq]
      rw [hrec]
      by_cases hxn : x.1.nid = c0.1.nid
      · have hxc := hall x (by simp) hxn
        have hc2 : c0.2 = m := by rw [← hxc]; exact hx2
        simp only [if_pos hc2, if_pos hxn]
      · simp only [if_neg hxn]
        split_ifs <;> omega
    · rw [List.filter_cons_of_neg (by simp [hx2])]
      rw [hrec]
      simp only [List.map_cons, List.count_cons, beq_iff_eq]
      by_cases hxn : x.1.nid = c0.1.nid
      · have hxc := hall x (by simp) hxn
        have hc2 : ¬c0.2 = m := by rw [← hxc]; exact hx2
        simp only [if_neg hc2]
      · simp only [if_neg hxn]
        split_ifs <;> omega

theorem count_contentNids_attach (asg : List (NodeData × Nat)) (c0 : NodeData × Nat)
    (hall : ∀ p ∈ asg, p.1.nid = c0.1.nid → p = c0)
    (hcnt : (asg.map (fun p => p.1.nid)).count c0.1.nid = 1) :
    ∀ t : DTree,
      (contentNids (attach_content t asg)).count c0.1.nid = (treeNids t).count c0.2 := by
  intro t
  induction t using DTree.recMem with
  | h d ch ct ih1 ih2 =>
    rw [attach_content_node, contentNids_node, treeNids_node]
    simp only [List.count_append, List.count_cons, beq_iff_eq]
    have hhead : (((asg.filter (fun p => p.2 = d.nid)).map
        (fun p => DTree.node p.1 [] [])).map (fun c => (rootData c).nid)).count c0.1.nid =
        if c0.2 = d.nid then 1 else 0 := by
      rw [List.map_map]
      have : ((asg.filter (fun p => p.2 = d.nid)).map
          ((fun c => (rootData c).nid) ∘ (fun p => DTree.node p.1 [] []))) =
          ((asg.filter (fun p => p.2 = d.nid)).map (fun p => p.1.nid)) := rfl
      rw [this, count_filter_map_nid asg c0 d.nid hall, hcnt]
    have hch : ((ch.map (fun c => attach_content c asg)).map contentNids).flatten.count
        c0.1.nid = ((ch.map treeNids).flatten).count c0.2 := by
      simp only [List.map_map, List.count_flatten]
      congr 1
      exact List.map_congr_left (fun c hc => ih1 c hc)
    rw [hhead, hch]
    by_cases hd : c0.2 = d.nid
    · rw [if_pos hd, if_pos hd.symm]
      omega
    · rw [if_neg hd, if_neg (fun h => hd h.symm)]
      omega

/-- C1, counterexample: with two `title` elements (identities 1 and 2 in
    creation order) and one `sec`, the emitted tree keeps the first title as
    root and silently drops the second: identity 2 belongs to a structural
    non-root input node, is not the root's identity, yet occurs nowhere in
    the tree - it has no parent, where the claim demands exactly one. -/
theorem claim_C1_counterexample :
    (treeNids (build_enhanced_hierarchy
        ⟨[⟨some 1, [⟨some "title", some "A", some 0, none⟩,
                    ⟨some "title", some "B", some 1, none⟩,
                    ⟨some "sec", some "S", some 2, none⟩]⟩]⟩
        ⟨fun _ _ => .error "down", fun _ _ _ _ => .error "down"⟩ false)).count 2 = 0 ∧
    (∃ n ∈ structural_nodes_of
        ⟨[⟨some 1, [⟨some "title", some "A", some 0, none⟩,
                    ⟨some "title", some "B", some 1, none⟩,
                    ⟨some "sec", some "S", some 2, none⟩]⟩]⟩,
      n.nid = 2 ∧ n.label = "title") ∧
    (rootData (build_enhanced_hierarchy
        ⟨[⟨some 1, [⟨some "title", some "A", some 0, none⟩,
                    ⟨some "title", some "B", some 1, none⟩,
                    ⟨some "sec", some "S", some 2, none⟩]⟩]⟩
        ⟨fun _ _ => .error "down", fun _ _ _ _ => .error "down"⟩ false)).nid = 1 := by
  have hb : build_enhanced_hierarchy
      ⟨[⟨some 1, [⟨some "title", some "A", some 0, none⟩,
                  ⟨some "title", some "B", some 1, none⟩,
                  ⟨some "sec", some "S", some 2, none⟩]⟩]⟩
      ⟨fun _ _ => .error "down", fun _ _ _ _ => .error "down"⟩ false =
      attach_content (structural_tree
        ⟨[⟨some 1, [⟨some "title", some "A", some 0, none⟩,
                    ⟨some "title", some "B", some 1, none⟩,
                    ⟨some "sec", some "S", some 2, none⟩]⟩]⟩) [] := rfl
  have hst : structural_tree
      ⟨[⟨some 1, [⟨some "title", some "A", some 0, none⟩,
                  ⟨some "title", some "B", some 1, none⟩,
                  ⟨some "sec", some "S", some 2, none⟩]⟩]⟩ =
      .node ⟨"page_1_order_0", "title", "A", 0, 1, 0, none, none, [], 1⟩
        [.node ⟨"page_1_order_2", "sec", "S", 1, 1, 2, none, none, [], 3⟩ [] []] [] := rfl
  refine ⟨?_, ?_, ?_⟩
  · rw [hb, treeNids_attach_content, hst]
    simp only [treeNids_node, List.map_cons, List.map_nil, List.flatten_cons,
      List.flatten_nil]
    decide
  · refine ⟨⟨"page_1_order_1", "title", "B", 0, 1, 1, none, none, [], 2⟩, ?_, rfl, rfl⟩
    decide
  · rw [hb, rootData_attach_content, hst]
    decide

/-- C1, amended: every surviving (post-merge) content node is attached to
    exactly one structural node's `content_elements`, and every structural
    node at level ≥ 1 that is not the chosen root has exactly one parent
    (its identity occurs exactly once in the emitted tree, and differs from
    the root's, so the occurrence is in exactly one `children` list); BUT a
    non-root structural node at level ≤ 0 - a second `title` element, or an
    element labeled `document` - is silently dropped: it occurs in no
    `children` list at all, rather than having one parent. -/
theorem claim_C1_attachment_totality :
    ∀ (json_data : RawDoc) (s : Summarizer) (enable_summaries : Bool),
      (∀ n ∈ (root_split json_data).2, 1 ≤ n.level →
        (treeNids (build_enhanced_hierarchy json_data s enable_summaries)).count n.nid = 1 ∧
          (root_split json_data).1.nid ≠ n.nid) ∧
      (∀ n ∈ (root_split json_data).2, n.level ≤ 0 →
        (treeNids (build_enhanced_hierarchy json_data s enable_summaries)).count n.nid = 0) ∧
      (∀ c ∈ content_nodes_of json_data,
        (contentNids (build_enhanced_hierarchy json_data s enable_summaries)).count c.nid
          = 1) := by
  intro json_data s b
  have htN : treeNids (build_enhanced_hierarchy json_data s b) =
      treeNids (structural_tree json_data) := by
    unfold build_enhanced_hierarchy
    by_cases hb : b = true
    · rw [if_pos hb, treeNids_gen]
      unfold assembled_tree assign_content_as_leaf_nodes
      rw [treeNids_attach_content]
    · rw [if_neg hb]
      unfold assembled_tree assign_content_as_leaf_nodes
      rw [treeNids_attach_content]
  have hcN : contentNids (build_enhanced_hierarchy json_data s b) =
      contentNids (assembled_tree json_data) := by
    unfold build_enhanced_hierarchy
    by_cases hb : b = true
    · rw [if_pos hb, contentNids_gen]
    · rw [if_neg hb]
  obtain ⟨hnd, hnotin, hsub⟩ := root_split_props json_data
  refine ⟨?_, ?_, ?_⟩
  · intro n hn hlev
    have hne : (root_split json_data).1.nid ≠ n.nid := by
      intro he
      apply hnotin
      rw [he]
      exact List.mem_map.mpr ⟨n, hn, rfl⟩
    refine ⟨?_, hne⟩
    rw [htN]
    unfold structural_tree
    rw [count_treeNids_build, if_neg hne]
    have hmemf : n ∈ (root_split json_data).2.filter (fun m => !decide (m.level ≤ 0)) :=
      List.mem_filter.mpr ⟨hn, by simp; omega⟩
    have hmemi : n.nid ∈ inserted_nids (root_split json_data).2 :=
      List.mem_map.mpr ⟨n, hmemf, rfl⟩
    have hndI : (inserted_nids (root_split json_data).2).Nodup :=
      List.Nodup.sublist (List.Sublist.map _ (List.filter_sublist _)) hnd
    have := List.count_eq_one_of_mem hndI hmemi
    omega
  · intro n hn hlev
    have hne : (root_split json_data).1.nid ≠ n.nid := by
      intro he
      apply hnotin
      rw [he]
      exact List.mem_map.mpr ⟨n, hn, rfl⟩
    rw [htN]
    unfold structural_tree
    rw [count_treeNids_build, if_neg hne]
    have h0 : (inserted_nids (root_split json_data).2).count n.nid = 0 := by
      rw [List.count_eq_zero]
      intro hmem
      rcases List.mem_map.mp hmem with ⟨n', hn', hnid⟩
      have hn'rest : n' ∈ (root_split json_data).2 := List.mem_of_mem_filter hn'
      have heqn : n' = n := nid_unique_of_nodup _ hnd n hn n' hn'rest hnid
      rw [heqn] at hn'
      have := (List.mem_filter.mp hn').2
      simp at this
      omega
    omega
  · intro c hc
    rw [hcN]
    unfold assembled_tree assign_content_as_leaf_nodes
    have hcntc : ((content_nodes_of json_data).map (fun n => n.nid)).count c.nid = 1 :=
      List.count_eq_one_of_mem (content_nodes_nid_nodup json_data)
        (List.mem_map.mpr ⟨c, hc, rfl⟩)
    have hmapeq : (((content_nodes_of json_data).map (fun c0 =>
        (c0, (best_parent (structural_tree json_data)
          (sort_by_key (collect_structural_nodes (structural_tree json_data))) c0).nid))).map
        (fun p => p.1.nid)) = (content_nodes_of json_data).map (fun n => n.nid) := by
      rw [List.map_map]
      rfl
    have hcnt1 : (((content_nodes_of json_data).map (fun c0 =>
        (c0, (best_parent (structural_tree json_data)
          (sort_by_key (collect_structural_nodes (structural_tree json_data))) c0).nid))).map
        (fun p => p.1.nid)).count c.nid = 1 := by
      rw [hmapeq]
      exact hcntc
    set bp := (best_parent (structural_tree json_data)
      (sort_by_key (collect_structural_nodes (structural_tree json_data))) c).nid with hbp
    have hall := pair_eq_of_count_one _ (c, bp)
      (List.mem_map.mpr ⟨c, hc, by rw [hbp]⟩) hcnt1
    have hmain := count_contentNids_attach _ (c, bp) hall hcnt1 (structural_tree json_data)
    rw [hmain]
    exact List.count_eq_one_of_mem (structural_tree_nid_nodup json_data)
      (best_parent_nid_mem json_data c)

/-- C1, witness: on the document [title, sec, para] (identities 1, 2, 3),
    the section has exactly one parent and the paragraph sits in exactly one
    `content_elements` list. -/
theorem claim_C1_witness :
    (treeNids (build_enhanced_hierarchy
        ⟨[⟨some 1, [⟨some "title", some "Doc", some 0, none⟩,
                    ⟨some "sec", some "Intro", some 1, none⟩,
                    ⟨some "para", some "hello", some 2, none⟩]⟩]⟩
        ⟨fun _ _ => .error "down", fun _ _ _ _ => .error "down"⟩ false)).count 2 = 1 ∧
    (contentNids (build_enhanced_hierarchy
        ⟨[⟨some 1, [⟨some "title", some "Doc", some 0, none⟩,
                    ⟨some "sec", some "Intro", some 1, none⟩,
                    ⟨some "para", some "hello", some 2, none⟩]⟩]⟩
        ⟨fun _ _ => .error "down", fun _ _ _ _ => .error "down"⟩ false)).count 3 = 1 := by
  have h := claim_C1_attachment_totality
    ⟨[⟨some 1, [⟨some "title", some "Doc", some 0, none⟩,
                ⟨some "sec", some "Intro", some 1, none⟩,
                ⟨some "para", some "hello", some 2, none⟩]⟩]⟩
    ⟨fun _ _ => .error "down", fun _ _ _ _ => .error "down"⟩ false
  constructor
  · exact (h.1 ⟨"page_1_order_1", "sec", "Intro", 1, 1, 1, none, none, [], 2⟩
      (by decide) (by decide)).1
  · exact h.2.2 ⟨"page_1_order_2", "para", "hello", -1, 1, 2, none, none, [], 3⟩
      (by decide)

end DocHierarchy
